import Mathlib

/-!
# Verification of the Distributed-framework actor runtime

Shallow embedding, in Lean 4, of the parts of the repository that the
claims C1..C10 are about: the engine's send path (`actor/engine.go`), the
registry (`actor/registry.go`), the growable ring buffer
(`ringbuffer/ringbuffer.go`), the supervised process loop
(`actor/types.go`), the cluster agent (`cluster/agent.go`,
`cluster/activation.go`) and the remote stream writer/reader
(`remote/stream_writer`, `remote/remote.go`).

Go maps are modelled as association lists with the usual key-uniqueness
invariant; Go slices as `List`/`Array`; Go `nil` pointers as `Option`.
-/

namespace DistFw

/-- `actor.PID` (registry.go): immutable pair of address and id. -/
structure PID where
  Address : String
  ID : String
deriving DecidableEq, Repr

/-- `actor.NewPID`. -/
def NewPID (address id : String) : PID := ⟨address, id⟩

/-- `LocalLookupAddr` (registry.go). -/
def LocalLookupAddr : String := "local"

section EngineSend

/-!
## C1: the engine send path

`Engine.send` (engine.go 139-154) together with `Engine.SendLocal`
(engine.go 246-258) and `Remote.Send` (remote.go 143-149).  The engine
state that this path reads is its address, whether a remote is
configured, and the registry (which `Registry.get` consults by `pid.ID`).
The observable effect of one `send` call is captured as a `SendOutcome`
together with the list of events broadcast on the event stream.
-/

/-- Events broadcast on the event stream that the send path can emit
(`DeadLetterEvent`, `EngineRemoteMissingEvent` from event.go). The
message payload type is a parameter `M`. -/
inductive SendEvent (M : Type) where
  | deadLetter (target : PID) (message : M) (sender : Option PID)
  | remoteMissing (target : PID) (sender : Option PID) (message : M)
deriving DecidableEq, Repr

/-- Where one `Engine.send` call ends up. `deliveredTo` is the call
`proc.Send(pid, msg, sender)` on the registered process; `toRemote` is
the call `e.remote.Send(pid, msg, sender)`, which (remote.go 143-149)
wraps the message in a `streamDeliver{target, sender, msg}` envelope for
the stream router. -/
inductive SendOutcome (M : Type) where
  | dropped
  | deliveredTo (id : String) (msg : M) (sender : Option PID)
  | eventOnly
  | toRemote (target : PID) (msg : M) (sender : Option PID)
deriving DecidableEq, Repr

/-- The part of the engine state that `Engine.send` reads: the engine
address, whether `e.remote` is non-nil, and the set of ids registered in
the registry (`Registry.lookup` keys). -/
structure EngineState where
  address : String
  hasRemote : Bool
  registryIds : List String
deriving Repr

/-- `Engine.isLocalMessage` (engine.go 270-275). -/
def isLocalMessage (e : EngineState) (pid : Option PID) : Bool :=
  match pid with
  | none => false
  | some p => e.address == p.Address

/-- `Engine.SendLocal` (engine.go 246-258): look the target up in the
registry by `pid.ID`; on a miss broadcast exactly one `DeadLetterEvent`. -/
def SendLocal {M : Type} (e : EngineState) (pid : PID) (msg : M)
    (sender : Option PID) : SendOutcome M × List (SendEvent M) :=
  if e.registryIds.contains pid.ID then
    (.deliveredTo pid.ID msg sender, [])
  else
    (.eventOnly, [.deadLetter pid msg sender])

/-- `Engine.send` (engine.go 139-154), the common body of `Engine.Send`
and `Engine.SendWithSender`. -/
def send {M : Type} (e : EngineState) (pid : Option PID) (msg : M)
    (sender : Option PID) : SendOutcome M × List (SendEvent M) :=
  match pid with
  | none => (.dropped, [])
  | some p =>
    if isLocalMessage e (some p) then
      SendLocal e p msg sender
    else if !e.hasRemote then
      (.eventOnly, [.remoteMissing p sender msg])
    else
      (.toRemote p msg sender, [])

end EngineSend

section RegistryAdd

/-!
## C3: registry add / SpawnProc

`Registry.add` (registry.go 64-76) and `Engine.SpawnProc`
(engine.go 98-101). The registry is a map `id → Processer`; we model a
`Processer` by its PID (only `proc.PID()` is consulted on this path) and
track whether `proc.Start()` was invoked.
-/

/-- A registry: association list from id to the registered process's
PID, newest entries at the front of the list (Go map semantics; keys are
unique under the `regKeysUnique` invariant). -/
def Registry := List (String × PID)

/-- Event broadcast by `Registry.add` on a duplicate id. -/
structure DuplicateIdEvent where
  pid : PID
deriving DecidableEq, Repr

/-- Result of `Registry.add` (registry.go 64-76): the new registry
contents, the events broadcast, and whether `proc.Start()` ran. -/
structure AddResult where
  registry : Registry
  events : List DuplicateIdEvent
  started : Bool

/-- `Registry.add` (registry.go 64-76): if the id is already a key,
broadcast `ActorDuplicateIdEvent` and return without inserting or
starting; otherwise insert and start the process. -/
def Registry.add (r : Registry) (procPid : PID) : AddResult :=
  if (r.map Prod.fst).contains procPid.ID then
    { registry := r, events := [⟨procPid⟩], started := false }
  else
    { registry := (procPid.ID, procPid) :: r, events := [], started := true }

/-- `Engine.SpawnProc` (engine.go 98-101): `add` then return
`p.PID()` unconditionally. -/
def SpawnProc (r : Registry) (procPid : PID) : AddResult × PID :=
  (Registry.add r procPid, procPid)

end RegistryAdd

section RingBufferModel

/-!
## C4 / C8: the growable ring buffer

`ringbuffer/ringbuffer.go`.  `buffer` holds `items`, `head`, `tail`,
`mod`; the `RingBuffer` additionally tracks `len`.  Go's `int64` indices
are modelled as `Nat` (they stay non-negative throughout), Go's zero
value `var t T` as `default`, and slice indexing as `Array.getD` /
`Array.setD` (the source always indexes in bounds, where the two
coincide).
-/

variable {α : Type}

/-- `buffer[T]` (ringbuffer.go 9-12). -/
structure RBContent (α : Type) where
  items : Array α
  head : Nat
  tail : Nat
  mod : Nat
deriving Repr, DecidableEq

/-- `RingBuffer[T]` (ringbuffer.go 15-19); the mutex is concurrency
control only and has no sequential content. -/
structure RingBuffer (α : Type) where
  len : Nat
  content : RBContent α
deriving Repr, DecidableEq

/-- `ringbuffer.New` (ringbuffer.go 22-32). -/
def RingBuffer.new (α : Type) [Inhabited α] (size : Nat) : RingBuffer α :=
  { len := 0
    content := { items := Array.mkArray size default, head := 0, tail := 0, mod := size } }

/-- `RingBuffer.Push` (ringbuffer.go 35-56): advance `tail`; if it
collides with `head`, double the capacity, copying `mod` slots starting
at the (new) tail position into offsets `[0..mod)` of the fresh buffer;
then store the item at the tail slot. -/
def RingBuffer.push [Inhabited α] (rb : RingBuffer α) (item : α) : RingBuffer α :=
  let tail := (rb.content.tail + 1) % rb.content.mod
  let c : RBContent α :=
    if tail == rb.content.head then
      let size := rb.content.mod * 2
      let newBuff : Array α := Array.ofFn fun i : Fin size =>
        if i.val < rb.content.mod then
          rb.content.items.getD ((tail + i.val) % rb.content.mod) default
        else default
      { items := newBuff, head := 0, tail := rb.content.mod, mod := size }
    else
      { rb.content with tail := tail }
  { len := rb.len + 1, content := { c with items := c.items.setD c.tail item } }

/-- `RingBuffer.Pop` (ringbuffer.go 64-78): advance `head`, read the
slot, zero it.  `none` models the `(zero, false)` return. -/
def RingBuffer.pop [Inhabited α] (rb : RingBuffer α) : Option (α × RingBuffer α) :=
  if rb.len == 0 then none
  else
    let head := (rb.content.head + 1) % rb.content.mod
    let item := rb.content.items.getD head default
    some (item,
      { len := rb.len - 1
        content := { rb.content with
                     head := head
                     items := rb.content.items.setD head default } })

/-- The loop body of `RingBuffer.PopN` (ringbuffer.go 94-100): read and
zero slots `(head+1+i) % mod` for `i = i₀ .. n-1`, in order. -/
def RingBuffer.popNGo [Inhabited α] (arr : Array α) (head mod i n : Nat) :
    List α × Array α :=
  if _ : i < n then
    let pos := (head + 1 + i) % mod
    let item := arr.getD pos default
    let rest := RingBuffer.popNGo (arr.setD pos default) head mod (i + 1) n
    (item :: rest.1, rest.2)
  else ([], arr)
termination_by n - i

/-- `RingBuffer.PopN` (ringbuffer.go 81-105): cap `n` at `len`, read and
zero `n` slots after `head`, advance `head` by `n`. -/
def RingBuffer.popN [Inhabited α] (rb : RingBuffer α) (n : Nat) :
    Option (List α × RingBuffer α) :=
  if rb.len == 0 then none
  else
    let n := if n ≥ rb.len then rb.len else n
    let res := RingBuffer.popNGo rb.content.items rb.content.head rb.content.mod 0 n
    some (res.1,
      { len := rb.len - n
        content := { rb.content with
                     head := (rb.content.head + n) % rb.content.mod
                     items := res.2 } })

/-- Abstraction: the live elements of the ring buffer in pop (oldest
first) order — slot `(head+1+i) % mod` holds the `i`-th oldest. -/
def RingBuffer.toList [Inhabited α] (rb : RingBuffer α) : List α :=
  (List.range rb.len).map fun i =>
    rb.content.items.getD ((rb.content.head + 1 + i) % rb.content.mod) default

/-- Well-formedness invariant of a ring buffer, established by `new` and
preserved by `push`/`pop`/`popN`. -/
structure RingBuffer.WF [Inhabited α] (rb : RingBuffer α) : Prop where
  modPos : 0 < rb.content.mod
  sizeEq : rb.content.items.size = rb.content.mod
  headLt : rb.content.head < rb.content.mod
  tailEq : rb.content.tail = (rb.content.head + rb.len) % rb.content.mod
  lenLt : rb.len < rb.content.mod

end RingBufferModel

section RingBufferLemmas

variable {α : Type}

theorem arr_getD_pos (a : Array α) {i : Nat} (d : α) (h : i < a.size) :
    a.getD i d = a[i] := by
  simp [Array.getD, h]

theorem arr_getD_setD_self (a : Array α) {i : Nat} (v d : α) (h : i < a.size) :
    (a.setD i v).getD i d = v := by
  rw [arr_getD_pos _ d (by simpa using h)]
  exact Array.getElem_setD_eq a v _

theorem arr_getD_setD_ne (a : Array α) {i j : Nat} (v d : α) (hne : i ≠ j) :
    (a.setD i v).getD j d = a.getD j d := by
  unfold Array.setD
  by_cases hi : i < a.size
  · rw [dif_pos hi]
    by_cases hj : j < a.size
    · rw [arr_getD_pos _ d (by simpa using hj), arr_getD_pos _ d hj]
      exact Array.getElem_set_ne a ⟨i, hi⟩ v (by simpa using hj) hne
    · simp [Array.getD, hj]
  · rw [dif_neg hi]

/-- Cancellation of a common shift modulo `m`. -/
theorem mod_shift_inj {m x a b : Nat} (ha : a < m) (hb : b < m)
    (h : (x + a) % m = (x + b) % m) : a = b := by
  have h2 : a ≡ b [MOD m] := Nat.ModEq.add_left_cancel' x h
  unfold Nat.ModEq at h2
  rwa [Nat.mod_eq_of_lt ha, Nat.mod_eq_of_lt hb] at h2

/-- Shape of `Push` in the growth (tail-collides-with-head) branch. -/
theorem push_eq_grow [Inhabited α] (rb : RingBuffer α) (x : α)
    (hcol : (rb.content.tail + 1) % rb.content.mod = rb.content.head) :
    rb.push x =
      { len := rb.len + 1
        content :=
          { items := (Array.ofFn fun i : Fin (rb.content.mod * 2) =>
              if i.val < rb.content.mod then
                rb.content.items.getD
                  ((rb.content.head + i.val) % rb.content.mod) default
              else default).setD rb.content.mod x
            head := 0, tail := rb.content.mod, mod := rb.content.mod * 2 } } := by
  simp only [RingBuffer.push, hcol, beq_self_eq_true, if_true]

/-- Shape of `Push` in the plain (no-collision) branch. -/
theorem push_eq_nogrow [Inhabited α] (rb : RingBuffer α) (x : α)
    (hcol : (rb.content.tail + 1) % rb.content.mod ≠ rb.content.head) :
    rb.push x =
      { len := rb.len + 1
        content :=
          { items := rb.content.items.setD
              ((rb.content.tail + 1) % rb.content.mod) x
            head := rb.content.head
            tail := (rb.content.tail + 1) % rb.content.mod
            mod := rb.content.mod } } := by
  have hb : ((rb.content.tail + 1) % rb.content.mod == rb.content.head) = false := by
    simpa using hcol
  simp only [RingBuffer.push, hb, Bool.false_eq_true, if_false]

/-- `Push` refines appending to the FIFO abstraction and preserves the
invariant. -/
theorem push_toList [Inhabited α] (rb : RingBuffer α) (x : α) (h : rb.WF) :
    (rb.push x).WF ∧ (rb.push x).toList = rb.toList ++ [x] := by
  obtain ⟨hmod, hsize, hhead, htail, hlen⟩ := h
  have htail' : (rb.content.tail + 1) % rb.content.mod =
      (rb.content.head + (rb.len + 1)) % rb.content.mod := by
    rw [htail, Nat.mod_add_mod, ← Nat.add_assoc]
  by_cases hcol : (rb.content.tail + 1) % rb.content.mod = rb.content.head
  · -- collision: the buffer grows, so len + 1 = mod
    have hsplit : (rb.content.head + (rb.len + 1)) % rb.content.mod =
        (rb.content.head + (rb.len + 1) % rb.content.mod) % rb.content.mod := by
      conv_lhs => rw [Nat.add_mod]
      rw [Nat.mod_eq_of_lt hhead]
    have h1 : (rb.content.head + (rb.len + 1) % rb.content.mod) % rb.content.mod =
        (rb.content.head + 0) % rb.content.mod := by
      rw [← hsplit, ← htail', hcol, Nat.add_zero, Nat.mod_eq_of_lt hhead]
    have hr0 : (rb.len + 1) % rb.content.mod = 0 :=
      mod_shift_inj (Nat.mod_lt _ hmod) hmod h1
    have hnm : rb.len + 1 = rb.content.mod :=
      Nat.le_antisymm hlen
        (Nat.le_of_dvd (Nat.succ_pos rb.len)
          (Nat.dvd_iff_mod_eq_zero.2 hr0))
    rw [push_eq_grow rb x hcol]
    have hm2 : rb.content.mod < rb.content.mod * 2 := by omega
    have hsz : ((Array.ofFn fun i : Fin (rb.content.mod * 2) =>
        if i.val < rb.content.mod then
          rb.content.items.getD ((rb.content.head + i.val) % rb.content.mod) default
        else default).setD rb.content.mod x).size = rb.content.mod * 2 := by
      rw [Array.size_setD, Array.size_ofFn]
    refine ⟨⟨?_, ?_, ?_, ?_, ?_⟩, ?_⟩
    · dsimp only; omega
    · dsimp only; exact hsz
    · dsimp only; omega
    · dsimp only
      rw [Nat.zero_add, hnm, Nat.mod_eq_of_lt hm2]
    · dsimp only; omega
    · unfold RingBuffer.toList
      dsimp only
      rw [List.range_succ, List.map_append, List.map_singleton]
      refine congrArg₂ (· ++ ·) ?_ (congrArg (fun a => [a]) ?_)
      · refine List.map_congr_left fun i hi => ?_
        rw [List.mem_range] at hi
        have hi1 : 1 + i < rb.content.mod := by omega
        have hpos : (0 + 1 + i) % (rb.content.mod * 2) = 1 + i := by
          rw [Nat.zero_add]; exact Nat.mod_eq_of_lt (by omega)
        rw [hpos, arr_getD_setD_ne _ _ _ (by omega),
          arr_getD_pos _ _ (by rw [Array.size_ofFn]; omega),
          Array.getElem_ofFn]
        simp only [hi1, if_true, if_pos]
        rw [← Nat.add_assoc]
      · have hpos : (0 + 1 + rb.len) % (rb.content.mod * 2) = rb.content.mod := by
          rw [Nat.zero_add, Nat.mod_eq_of_lt (by omega)]
          omega
        rw [hpos, arr_getD_setD_self _ _ _ (by rw [Array.size_ofFn]; exact hm2)]
  · -- no collision: plain append at the advanced tail
    have hlt : rb.len + 1 < rb.content.mod := by
      rcases Nat.lt_or_ge (rb.len + 1) rb.content.mod with h1 | h1
      · exact h1
      · exfalso
        apply hcol
        have : rb.len + 1 = rb.content.mod := Nat.le_antisymm hlen h1
        rw [htail', this, Nat.add_mod_right, Nat.mod_eq_of_lt hhead]
    rw [push_eq_nogrow rb x hcol]
    have htl : (rb.content.tail + 1) % rb.content.mod < rb.content.mod :=
      Nat.mod_lt _ hmod
    have htail2 : (rb.content.tail + 1) % rb.content.mod =
        (rb.content.head + 1 + rb.len) % rb.content.mod := by
      rw [htail']; congr 1; omega
    refine ⟨⟨?_, ?_, ?_, ?_, ?_⟩, ?_⟩
    · dsimp only; exact hmod
    · dsimp only; rw [Array.size_setD]; exact hsize
    · dsimp only; exact hhead
    · dsimp only; exact htail'
    · dsimp only; omega
    · unfold RingBuffer.toList
      dsimp only
      rw [List.range_succ, List.map_append, List.map_singleton]
      refine congrArg₂ (· ++ ·) ?_ (congrArg (fun a => [a]) ?_)
      · refine List.map_congr_left fun i hi => ?_
        rw [List.mem_range] at hi
        have hne : (rb.content.tail + 1) % rb.content.mod ≠
            (rb.content.head + 1 + i) % rb.content.mod := by
          rw [htail2]
          intro heq
          have := mod_shift_inj (x := rb.content.head + 1)
            (by omega : rb.len < rb.content.mod) (by omega : i < rb.content.mod) heq
          omega
        exact arr_getD_setD_ne _ _ _ hne
      · rw [← htail2]
        exact arr_getD_setD_self _ _ _ (by rw [hsize]; exact htl)

/-- Shape of `Pop` on a non-empty buffer. -/
theorem pop_eq [Inhabited α] (rb : RingBuffer α) (hpos : rb.len ≠ 0) :
    rb.pop = some
      (rb.content.items.getD ((rb.content.head + 1) % rb.content.mod) default,
        { len := rb.len - 1
          content :=
            { rb.content with
              head := (rb.content.head + 1) % rb.content.mod
              items := rb.content.items.setD
                ((rb.content.head + 1) % rb.content.mod) default } }) := by
  have hb : (rb.len == 0) = false := by simpa using hpos
  simp only [RingBuffer.pop, hb, Bool.false_eq_true, if_false]

/-- The FIFO abstraction of a non-empty buffer starts at slot
`(head+1) % mod`. -/
theorem toList_cons [Inhabited α] (rb : RingBuffer α) (k : Nat)
    (hk : rb.len = k + 1) :
    rb.toList =
      rb.content.items.getD ((rb.content.head + 1) % rb.content.mod) default ::
        (List.range k).map (fun i =>
          rb.content.items.getD
            ((rb.content.head + 1 + (i + 1)) % rb.content.mod) default) := by
  unfold RingBuffer.toList
  rw [hk, List.range_succ_eq_map, List.map_cons, List.map_map]
  congr 2

/-- `Pop` refines taking the head of the FIFO abstraction and preserves
the invariant; on an empty buffer it returns `none` (Go: `false`). -/
theorem pop_toList [Inhabited α] (rb : RingBuffer α) (h : rb.WF) :
    (rb.toList = [] → rb.pop = none) ∧
    (∀ x xs, rb.toList = x :: xs →
      ∃ rb', rb.pop = some (x, rb') ∧ rb'.WF ∧ rb'.toList = xs) := by
  obtain ⟨hmod, hsize, hhead, htail, hlen⟩ := h
  have hlenList : rb.toList.length = rb.len := by
    unfold RingBuffer.toList; rw [List.length_map, List.length_range]
  constructor
  · intro hnil
    have h0 : rb.len = 0 := by rw [← hlenList, hnil]; rfl
    simp only [RingBuffer.pop, h0, beq_self_eq_true, if_true]
  · intro x xs hx
    have hpos : rb.len ≠ 0 := by
      intro h0
      rw [← hlenList, hx] at h0
      exact absurd h0 (by simp)
    obtain ⟨k, hk⟩ : ∃ k, rb.len = k + 1 :=
      ⟨rb.len - 1, by omega⟩
    have hcons := toList_cons rb k hk
    rw [hx] at hcons
    obtain ⟨hx1, hx2⟩ : x = _ ∧ xs = _ := by
      exact ⟨(List.cons.injEq _ _ _ _ ▸ hcons).1, (List.cons.injEq _ _ _ _ ▸ hcons).2⟩
    refine ⟨_, by rw [pop_eq rb hpos, hx1], ?_, ?_⟩
    · refine ⟨hmod, ?_, ?_, ?_, ?_⟩
      · dsimp only; rw [Array.size_setD]; exact hsize
      · dsimp only; exact Nat.mod_lt _ hmod
      · dsimp only
        rw [htail, Nat.mod_add_mod, hk]
        congr 1
        omega
      · dsimp only; omega
    · unfold RingBuffer.toList
      dsimp only
      rw [hx2, hk]
      show (List.range (k + 1 - 1)).map _ = _
      have hk1 : k + 1 - 1 = k := rfl
      rw [hk1]
      refine List.map_congr_left fun t ht => ?_
      rw [List.mem_range] at ht
      have hidx : ((rb.content.head + 1) % rb.content.mod + 1 + t) % rb.content.mod =
          (rb.content.head + 1 + (t + 1)) % rb.content.mod := by
        rw [Nat.add_assoc, Nat.mod_add_mod]
        congr 1
        omega
      rw [hidx]
      refine arr_getD_setD_ne _ _ _ ?_
      intro heq
      have h1 : (rb.content.head + 1 + 0) % rb.content.mod =
          (rb.content.head + 1 + (t + 1)) % rb.content.mod := by
        rw [Nat.add_zero]; exact heq
      have := mod_shift_inj (x := rb.content.head + 1)
        (by omega : 0 < rb.content.mod)
        (by omega : t + 1 < rb.content.mod) h1
      omega

/-- Elements returned by the `PopN` loop: slots `(head+1+j) % mod` for
`j = i .. n-1`, read from the original array (earlier zeroing never hits
a later read position when `n ≤ mod`). -/
theorem popNGo_fst [Inhabited α] (arr : Array α) (head mod i n : Nat)
    (hn : n ≤ mod) :
    (RingBuffer.popNGo arr head mod i n).1 =
      (List.range' i (n - i)).map
        (fun j => arr.getD ((head + 1 + j) % mod) default) := by
  by_cases hin : i < n
  · rw [RingBuffer.popNGo, dif_pos hin]
    have IH := popNGo_fst
      (arr.setD ((head + 1 + i) % mod) default) head mod (i + 1) n hn
    dsimp only
    rw [IH]
    have hrange : n - i = (n - (i + 1)) + 1 := by omega
    rw [hrange, List.range'_succ, List.map_cons]
    congr 1
    refine List.map_congr_left fun j hj => ?_
    have hj' : i + 1 ≤ j ∧ j < i + 1 + (n - (i + 1)) :=
      List.mem_range'_1.1 hj
    refine arr_getD_setD_ne _ _ _ ?_
    intro heq
    have := mod_shift_inj (x := head + 1)
      (by omega : i < mod) (by omega : j < mod) heq
    omega
  · rw [RingBuffer.popNGo, dif_neg hin]
    have : n - i = 0 := by omega
    rw [this, List.range'_zero, List.map_nil]
termination_by n - i

/-- Slots outside the popped window are untouched by the `PopN` loop. -/
theorem popNGo_snd_getD [Inhabited α] (arr : Array α) (head mod i n k : Nat)
    (hk : ∀ j, i ≤ j → j < n → (head + 1 + j) % mod ≠ k) :
    (RingBuffer.popNGo arr head mod i n).2.getD k default =
      arr.getD k default := by
  by_cases hin : i < n
  · rw [RingBuffer.popNGo, dif_pos hin]
    dsimp only
    rw [popNGo_snd_getD (arr.setD ((head + 1 + i) % mod) default) head mod
      (i + 1) n k (fun j hj1 hj2 => hk j (by omega) hj2)]
    exact arr_getD_setD_ne _ _ _ (hk i le_rfl hin)
  · rw [RingBuffer.popNGo, dif_neg hin]
termination_by n - i

/-- The `PopN` loop preserves the array size. -/
theorem popNGo_snd_size [Inhabited α] (arr : Array α) (head mod i n : Nat) :
    (RingBuffer.popNGo arr head mod i n).2.size = arr.size := by
  by_cases hin : i < n
  · rw [RingBuffer.popNGo, dif_pos hin]
    dsimp only
    rw [popNGo_snd_size, Array.size_setD]
  · rw [RingBuffer.popNGo, dif_neg hin]
termination_by n - i

/-- Shape of `PopN` on a non-empty buffer, with the capped count. -/
theorem popN_eq [Inhabited α] (rb : RingBuffer α) (n : Nat) (hpos : rb.len ≠ 0) :
    rb.popN n =
      (let n' := if n ≥ rb.len then rb.len else n
       let res := RingBuffer.popNGo rb.content.items rb.content.head
         rb.content.mod 0 n'
       some (res.1,
        { len := rb.len - n'
          content := { rb.content with
                       head := (rb.content.head + n') % rb.content.mod
                       items := res.2 } })) := by
  have hb : (rb.len == 0) = false := by simpa using hpos
  simp only [RingBuffer.popN, hb, Bool.false_eq_true, if_false]

/-- `PopN` refines take/drop on the FIFO abstraction and preserves the
invariant; on an empty buffer it returns `none` (Go: `nil, false`). -/
theorem popN_toList [Inhabited α] (rb : RingBuffer α) (n : Nat) (h : rb.WF) :
    (rb.toList = [] → rb.popN n = none) ∧
    (rb.toList ≠ [] →
      ∃ rb', rb.popN n = some (rb.toList.take n, rb') ∧ rb'.WF ∧
        rb'.toList = rb.toList.drop n) := by
  obtain ⟨hmod, hsize, hhead, htail, hlen⟩ := h
  have hlenList : rb.toList.length = rb.len := by
    unfold RingBuffer.toList; rw [List.length_map, List.length_range]
  constructor
  · intro hnil
    have h0 : rb.len = 0 := by rw [← hlenList, hnil]; rfl
    simp only [RingBuffer.popN, h0, beq_self_eq_true, if_true]
  · intro hne
    have hpos : rb.len ≠ 0 := by
      intro h0
      apply hne
      have : rb.toList.length = 0 := by rw [hlenList, h0]
      exact List.length_eq_zero.1 this
    rw [popN_eq rb n hpos]
    set n' := if n ≥ rb.len then rb.len else n with hn'
    have hn'min : n' = min n rb.len := by
      rw [hn', Nat.min_def]
      split_ifs <;> omega
    have hn'le : n' ≤ rb.len := by omega
    have hn'mod : n' ≤ rb.content.mod := by omega
    refine ⟨{ len := rb.len - n'
              content := { rb.content with
                head := (rb.content.head + n') % rb.content.mod
                items := (RingBuffer.popNGo rb.content.items rb.content.head
                  rb.content.mod 0 n').2 } }, ?_, ?_, ?_⟩
    · -- the returned elements are `toList.take n`
      dsimp only
      refine congrArg some (congrArg₂ Prod.mk ?_ rfl)
      rw [popNGo_fst _ _ _ _ _ hn'mod, Nat.sub_zero, ← List.range_eq_range']
      refine List.ext_getElem ?_ ?_
      · rw [List.length_map, List.length_range, List.length_take, hlenList]
        omega
      · intro i h1 h2
        rw [List.getElem_map, List.getElem_range, List.getElem_take]
        unfold RingBuffer.toList
        rw [List.getElem_map, List.getElem_range]
    · -- invariant
      refine ⟨hmod, ?_, ?_, ?_, ?_⟩
      · dsimp only; rw [popNGo_snd_size]; exact hsize
      · dsimp only; exact Nat.mod_lt _ hmod
      · dsimp only
        rw [htail, Nat.mod_add_mod]
        congr 1
        omega
      · dsimp only; omega
    · -- the remaining elements are `toList.drop n`
      unfold RingBuffer.toList
      dsimp only
      refine List.ext_getElem ?_ ?_
      · simp only [List.length_map, List.length_range, List.length_drop]
        omega
      · intro t h1 h2
        simp only [List.length_map, List.length_range, List.length_drop] at h1 h2
        rw [List.getElem_map, List.getElem_range, List.getElem_drop,
          List.getElem_map, List.getElem_range]
        have hidx : ((rb.content.head + n') % rb.content.mod + 1 + t) %
            rb.content.mod =
            (rb.content.head + 1 + (n' + t)) % rb.content.mod := by
          rw [Nat.add_assoc, Nat.mod_add_mod]
          congr 1
          omega
        rw [hidx, popNGo_snd_getD]
        · congr 2
          omega
        · intro j hj0 hjn heq
          have := mod_shift_inj (x := rb.content.head + 1)
            (by omega : j < rb.content.mod)
            (by omega : n' + t < rb.content.mod) heq
          omega

/-- `New` establishes the invariant and starts empty. -/
theorem new_WF (α : Type) [Inhabited α] (size : Nat) (h : 0 < size) :
    (RingBuffer.new α size).WF ∧ (RingBuffer.new α size).toList = [] := by
  refine ⟨⟨h, by simp [RingBuffer.new], h, by simp [RingBuffer.new], h⟩, ?_⟩
  unfold RingBuffer.toList RingBuffer.new
  simp

end RingBufferLemmas

section FifoRefinement

variable {α : Type}

/-- One client operation on the buffer, for stating the refinement over
arbitrary operation sequences. -/
inductive QOp (α : Type) where
  | push (x : α)
  | pop
  | popN (n : Nat)

/-- Run a sequence of operations on the `RingBuffer`, collecting each
`Pop`/`PopN` result (`none` models Go's `false` return; the buffer is
left untouched in that case, as in the source). -/
def RingBuffer.run [Inhabited α] (rb : RingBuffer α) :
    List (QOp α) → List (Option (List α))
  | [] => []
  | QOp.push x :: ops => (rb.push x).run ops
  | QOp.pop :: ops =>
    match rb.pop with
    | none => none :: rb.run ops
    | some (x, rb') => some [x] :: rb'.run ops
  | QOp.popN n :: ops =>
    match rb.popN n with
    | none => none :: rb.run ops
    | some (xs, rb') => some xs :: rb'.run ops

/-- The functional FIFO queue of the claim: elements leave in exactly
the order they entered; popping an empty queue reports failure. -/
def Queue.run (q : List α) : List (QOp α) → List (Option (List α))
  | [] => []
  | QOp.push x :: ops => Queue.run (q ++ [x]) ops
  | QOp.pop :: ops =>
    match q with
    | [] => none :: Queue.run [] ops
    | x :: xs => some [x] :: Queue.run xs ops
  | QOp.popN n :: ops =>
    match q with
    | [] => none :: Queue.run [] ops
    | x :: xs => some ((x :: xs).take n) :: Queue.run ((x :: xs).drop n) ops

end FifoRefinement

section ProcessModel

/-!
## C2: the supervised process loop

`process.Invoke` (types.go 87-130), `process.invokeMsg` (133-146),
`process.Start` (149-173) and `process.tryRestart` (176-209).

Messages are modelled by `PMsg` (system messages plus opaque user
payloads).  A receiver incarnation is modelled by the predicate
`panics : PMsg → Bool` — whether `Receive` panics while processing that
message; the *delivery log* of a call is the list of messages on which
`Receive` was invoked (including a message whose processing then
panics, and the best-effort `Stopped` delivered by the `recover`
handlers and by `cleanup`).  The model assumes the `Stopped` handler
itself does not panic (in Go that would kill the scheduling goroutine).
Each Lean function models one call of the corresponding Go function;
the restart recursion (`tryRestart` → `Start`) is composed explicitly
in the theorems, mirroring the call chain in the source.
-/

/-- Messages a process can receive: the synthetic lifecycle messages,
the private poison pill, and user payloads. -/
inductive PMsg where
  | initialized
  | started
  | stopped
  | pill (graceful : Bool)
  | user (n : Nat)
deriving DecidableEq, Repr

/-- The Go type test `msg.Msg.(poisonPill)`. -/
def PMsg.isPill : PMsg → Bool
  | .pill _ => true
  | _ => false

/-- The `graceful` field of a pill (only consulted under `isPill`). -/
def PMsg.pillGraceful : PMsg → Bool
  | .pill g => g
  | _ => false

/-- `actor.Envelope` (types.go 39-42). -/
structure PEnvelope where
  msg : PMsg
  sender : Option PID
deriving DecidableEq, Repr

/-- Outcome of one `process.Invoke` call. -/
inductive InvokeOutcome where
  | completed
  | cleanedUp (graceful : Bool)
  | panicked (mbuffer : List PEnvelope)
deriving DecidableEq, Repr

/-- The graceful-pill drain (types.go 118-123): deliver the rest of the
batch through `invokeMsg`, which skips pills; stop at the first message
whose processing panics (`true` flags the panic). -/
def deliverAll (panics : PMsg → Bool) : List PEnvelope → List PMsg × Bool
  | [] => ([], false)
  | e :: rest =>
    if e.msg.isPill then deliverAll panics rest
    else if panics e.msg then ([e.msg], true)
    else
      let r := deliverAll panics rest
      (e.msg :: r.1, r.2)

/-- The loop of `process.Invoke` (types.go 112-129) from index `i`,
with the deferred `recover` (types.go 97-110): on a panic at index `i`
the receiver gets a best-effort `Stopped` and the un-processed tail
`msgs[i+1:]` (`nproc` was already incremented) becomes the new
`mbuffer`. -/
def invokeGo (panics : PMsg → Bool) (msgs : List PEnvelope) (i : Nat) :
    List PMsg × InvokeOutcome :=
  if h : i < msgs.length then
    let m := (msgs.get ⟨i, h⟩).msg
    if m.isPill then
      if m.pillGraceful then
        let drain := deliverAll panics (msgs.drop i)
        if drain.2 then
          (drain.1 ++ [PMsg.stopped], .panicked (msgs.drop (i + 1)))
        else (drain.1 ++ [PMsg.stopped], .cleanedUp true)
      else ([PMsg.stopped], .cleanedUp false)
    else if panics m then
      ([m, PMsg.stopped], .panicked (msgs.drop (i + 1)))
    else
      let rest := invokeGo panics msgs (i + 1)
      (m :: rest.1, rest.2)
  else ([], .completed)
termination_by msgs.length - i

/-- `process.Invoke` (types.go 87-130). -/
def procInvoke (panics : PMsg → Bool) (msgs : List PEnvelope) :
    List PMsg × InvokeOutcome :=
  invokeGo panics msgs 0

/-- Result of one `process.Start` call. -/
inductive StartResult where
  | running
  | cleanedUp (graceful : Bool)
  | panicked (mbuffer : List PEnvelope)
deriving DecidableEq, Repr

/-- `process.Start` (types.go 149-173): produce a fresh receiver,
deliver `Initialized` then `Started` (each guarded by the deferred
recover, which leaves `mbuffer` untouched), then replay `mbuffer`
through `Invoke`, then start the inbox. -/
def procStart (panics : PMsg → Bool) (mbuffer : List PEnvelope) :
    List PMsg × StartResult :=
  if panics PMsg.initialized then
    ([PMsg.initialized, PMsg.stopped], .panicked mbuffer)
  else if panics PMsg.started then
    ([PMsg.initialized, PMsg.started, PMsg.stopped], .panicked mbuffer)
  else if 0 < mbuffer.length then
    let r := procInvoke panics mbuffer
    match r.2 with
    | .completed => ([PMsg.initialized, PMsg.started] ++ r.1, .running)
    | .cleanedUp g => ([PMsg.initialized, PMsg.started] ++ r.1, .cleanedUp g)
    | .panicked mb => ([PMsg.initialized, PMsg.started] ++ r.1, .panicked mb)
  else ([PMsg.initialized, PMsg.started], .running)

/-- What `process.tryRestart` (types.go 176-209) decides. -/
inductive RestartDecision where
  | internalRetry
  | maxExceeded
  | restart (restarts' : Nat)
deriving DecidableEq, Repr

/-- `process.tryRestart` (types.go 176-209): an `*InternalError` panic
restarts without consuming a credit; at `restarts == MaxRestarts` the
process is terminally cleaned up after a `MaxRestartsExceeded` event;
otherwise the counter is incremented, `ActorRestarted` is broadcast and
the process re-enters `Start`. -/
def tryRestart (isInternal : Bool) (restarts maxRestarts : Nat) :
    RestartDecision :=
  if isInternal then .internalRetry
  else if restarts == maxRestarts then .maxExceeded
  else .restart (restarts + 1)

end ProcessModel

section ProcessLemmas

/-- A pill-free, panic-free suffix is delivered in order and completes. -/
theorem invokeGo_no_panic (panics : PMsg → Bool) (msgs : List PEnvelope)
    (i : Nat)
    (h : ∀ j (hj : j < msgs.length), i ≤ j →
      (msgs.get ⟨j, hj⟩).msg.isPill = false ∧
      panics (msgs.get ⟨j, hj⟩).msg = false) :
    invokeGo panics msgs i = ((msgs.drop i).map (·.msg), .completed) := by
  by_cases hin : i < msgs.length
  · obtain ⟨hpill, hpan⟩ := h i hin le_rfl
    rw [invokeGo, dif_pos hin]
    simp only [hpill, hpan, Bool.false_eq_true, if_false]
    rw [invokeGo_no_panic panics msgs (i + 1)
      (fun j hj hij => h j hj (by omega))]
    rw [List.drop_eq_getElem_cons hin, List.map_cons]
    rfl
  · rw [invokeGo, dif_neg hin, List.drop_eq_nil_of_le (by omega), List.map_nil]
termination_by msgs.length - i

/-- If the receiver panics first at index `i` (no pill up to `i`), the
loop delivers exactly the prefix, then the panicking message, then the
best-effort `Stopped`, and buffers exactly `msgs[i+1:]`. -/
theorem invokeGo_panic (panics : PMsg → Bool) (msgs : List PEnvelope)
    (i k : Nat) (hk : k ≤ i) (hi : i < msgs.length)
    (hpanic : panics (msgs.get ⟨i, hi⟩).msg = true)
    (hnopill : ∀ j (hj : j < msgs.length), j ≤ i →
      (msgs.get ⟨j, hj⟩).msg.isPill = false)
    (hbefore : ∀ j (hj : j < msgs.length), j < i →
      panics (msgs.get ⟨j, hj⟩).msg = false) :
    invokeGo panics msgs k =
      (((msgs.drop k).take (i - k)).map (·.msg) ++
        [(msgs.get ⟨i, hi⟩).msg, PMsg.stopped],
       .panicked (msgs.drop (i + 1))) := by
  have hkin : k < msgs.length := by omega
  rw [invokeGo, dif_pos hkin]
  by_cases hki : k = i
  · subst hki
    simp only [hnopill k hkin le_rfl, hpanic, Bool.false_eq_true, if_false,
      if_true, Nat.sub_self, List.take_zero, List.map_nil, List.nil_append]
  · have hklt : k < i := by omega
    simp only [hnopill k hkin (by omega), hbefore k hkin hklt,
      Bool.false_eq_true, if_false]
    rw [invokeGo_panic panics msgs i (k + 1) (by omega) hi hpanic hnopill hbefore]
    have hdrop : msgs.drop k = msgs.get ⟨k, hkin⟩ :: msgs.drop (k + 1) :=
      List.drop_eq_getElem_cons hkin
    have htake : i - k = (i - (k + 1)) + 1 := by omega
    rw [hdrop, htake, List.take_succ_cons, List.map_cons]
    rfl
termination_by i - k

end ProcessLemmas

/-- C2: when the receiver panics at index `i` of a (pill-free) batch and
the restart counter is below `max_restarts`: `Invoke` delivers the
prefix once (the panicking message included, never again — it is
excluded from the tail), buffers exactly `msgs[i+1:]` in `mbuffer`,
`tryRestart` consumes one restart credit, and after the restart the
fresh receiver gets the synthetic `Initialized` and `Started` first,
then the buffered tail, and only then messages taken from the inbox. -/
theorem c2_restart_replay (panics₁ panics₂ : PMsg → Bool)
    (msgs inboxMsgs : List PEnvelope) (i restarts maxRestarts : Nat)
    (hi : i < msgs.length)
    (hpanic : panics₁ (msgs.get ⟨i, hi⟩).msg = true)
    (hnopill : ∀ e ∈ msgs, e.msg.isPill = false)
    (hnocleanInbox : ∀ e ∈ inboxMsgs, e.msg.isPill = false ∧
      panics₂ e.msg = false)
    (hbefore : ∀ j (hj : j < msgs.length), j < i →
      panics₁ (msgs.get ⟨j, hj⟩).msg = false)
    (hmax : restarts < maxRestarts)
    (hfresh : ∀ m, panics₂ m = false) :
    (procInvoke panics₁ msgs).2 = .panicked (msgs.drop (i + 1)) ∧
    (procInvoke panics₁ msgs).1 =
      ((msgs.take i).map (·.msg)) ++
        [(msgs.get ⟨i, hi⟩).msg, PMsg.stopped] ∧
    tryRestart false restarts maxRestarts = .restart (restarts + 1) ∧
    procStart panics₂ (msgs.drop (i + 1)) =
      (PMsg.initialized :: PMsg.started ::
        (msgs.drop (i + 1)).map (·.msg), .running) ∧
    (procStart panics₂ (msgs.drop (i + 1))).1 ++
        (procInvoke panics₂ inboxMsgs).1 =
      PMsg.initialized :: PMsg.started ::
        ((msgs.drop (i + 1)).map (·.msg) ++ inboxMsgs.map (·.msg)) := by
  have hnopill' : ∀ j (hj : j < msgs.length), j ≤ i →
      (msgs.get ⟨j, hj⟩).msg.isPill = false :=
    fun j hj _ => hnopill _ (msgs.get_mem j hj)
  have hinv := invokeGo_panic panics₁ msgs i 0 (by omega) hi hpanic
    hnopill' hbefore
  have hinv1 : procInvoke panics₁ msgs =
      (((msgs.take i).map (·.msg)) ++
        [(msgs.get ⟨i, hi⟩).msg, PMsg.stopped],
       .panicked (msgs.drop (i + 1))) := by
    rw [procInvoke, hinv, List.drop_zero, Nat.sub_zero]
  have hstart : procStart panics₂ (msgs.drop (i + 1)) =
      (PMsg.initialized :: PMsg.started ::
        (msgs.drop (i + 1)).map (·.msg), .running) := by
    unfold procStart
    rw [hfresh PMsg.initialized, hfresh PMsg.started]
    simp only [Bool.false_eq_true, if_false]
    by_cases hlen : 0 < (msgs.drop (i + 1)).length
    · rw [if_pos hlen]
      have : procInvoke panics₂ (msgs.drop (i + 1)) =
          (((msgs.drop (i + 1)).drop 0).map (·.msg), .completed) :=
        invokeGo_no_panic panics₂ (msgs.drop (i + 1)) 0
          (fun j hj _ =>
            ⟨hnopill _ (List.mem_of_mem_drop ((msgs.drop (i+1)).get_mem j hj)),
              hfresh _⟩)
      rw [this]
      rw [List.drop_zero]
      rfl
    · rw [if_neg hlen]
      have hnil : msgs.drop (i + 1) = [] := by
        rcases List.eq_nil_or_concat (msgs.drop (i + 1)) with h | ⟨l, a, h⟩
        · exact h
        · exfalso; apply hlen; rw [h]; simp
      rw [hnil]
      rfl
  have hinbox : procInvoke panics₂ inboxMsgs =
      (inboxMsgs.map (·.msg), .completed) := by
    have := invokeGo_no_panic panics₂ inboxMsgs 0
      (fun j hj _ => hnocleanInbox _ (inboxMsgs.get_mem j hj))
    rw [procInvoke, this, List.drop_zero]
  refine ⟨by rw [hinv1], by rw [hinv1], ?_, hstart, ?_⟩
  · have hne : (restarts == maxRestarts) = false := by
      simp only [beq_eq_false_iff_ne, ne_eq]
      omega
    simp [tryRestart, hne]
  · rw [hstart, hinbox]
    rfl

/-- C2 witness: the batch `a, crash, b` with a receiver that panics on
`crash` (spec scenario S3): the tail `[b]` is buffered and replayed
after `Initialized`/`Started`, before the inbox message `c`. -/
theorem c2_restart_replay_witness :
    (procInvoke (fun m => m == PMsg.user 2)
        [⟨PMsg.user 1, none⟩, ⟨PMsg.user 2, none⟩, ⟨PMsg.user 3, none⟩]).2 =
      .panicked [⟨PMsg.user 3, none⟩] ∧
    tryRestart false 0 3 = .restart 1 ∧
    procStart (fun _ => false) [⟨PMsg.user 3, none⟩] =
      ([PMsg.initialized, PMsg.started, PMsg.user 3], .running) ∧
    (procStart (fun _ => false) [⟨PMsg.user 3, none⟩]).1 ++
        (procInvoke (fun _ => false) [⟨PMsg.user 9, none⟩]).1 =
      [PMsg.initialized, PMsg.started, PMsg.user 3, PMsg.user 9] := by
  have h := c2_restart_replay (fun m => m == PMsg.user 2) (fun _ => false)
    [⟨PMsg.user 1, none⟩, ⟨PMsg.user 2, none⟩, ⟨PMsg.user 3, none⟩]
    [⟨PMsg.user 9, none⟩] 1 0 3
    (by decide) (by decide) (by decide) (by decide) (by decide) (by decide)
    (fun m => rfl)
  exact ⟨h.1, h.2.2.1, h.2.2.2.1, h.2.2.2.2⟩

section ClusterModel

/-!
## C5 / C6 / C7: the cluster agent

`cluster/agent.go`, `cluster/member_set.go`, `cluster/activation.go`.
Go maps (`MemberSet.members`, `Agent.kinds`, `Agent.activated`) are
modelled as lists with key-uniqueness invariants; `Agent.kinds` as a
duplicate-free list of kind names.  Network requests issued by the
agent (`engine.Request` to a remote activator) and by the cluster
facade (`engine.Request` to the local agent) are abstracted by outcome
parameters: a request either fails (error / timeout / unexpected
response type) or yields the value the callee's handler computes.
-/

/-- `cluster.Member` (generated message type; see `Member.Equals`,
`Member.HasKind` in the cluster package). -/
structure Member where
  ID : String
  Host : String
  Region : String
  Kinds : List String
deriving DecidableEq, Repr

/-- `Member.HasKind`. -/
def Member.HasKind (m : Member) (k : String) : Bool :=
  m.Kinds.contains k

/-- `MemberSet.Except` (member_set.go 80-94): members of `s` whose id
is not among `others`'. -/
def msetExcept (s : List Member) (others : List Member) : List Member :=
  s.filter (fun m => !(others.any (fun x => x.ID == m.ID)))

/-- `MemberSet.Add` (member_set.go 36-38): map insert keyed by id. -/
def msetAdd (s : List Member) (m : Member) : List Member :=
  if s.any (fun x => x.ID == m.ID) then
    s.map (fun x => if x.ID == m.ID then m else x)
  else s ++ [m]

/-- `NewMemberSet` (member_set.go 9-17): fold the slice into a map
keyed by id (later duplicates overwrite). -/
def newMemberSet (ms : List Member) : List Member :=
  ms.foldl msetAdd []

/-- `MemberSet.FilterByKind` (member_set.go 97-105). -/
def FilterByKind (members : List Member) (k : String) : List Member :=
  members.filter (fun m => m.HasKind k)

/-- Set-insert of one kind name, the body of the loops in
`Agent.memberJoin` (agent.go 232-236) and `Agent.rebuildKinds`
(agent.go 313-318): `if _, ok := a.kinds[kind]; !ok { ... = true }`. -/
def addKind (ks : List String) (k : String) : List String :=
  if ks.contains k then ks else ks ++ [k]

/-- `Agent.rebuildKinds` (agent.go 310-320): clear, then union the
kinds of every remaining member. -/
def rebuildKinds (members : List Member) : List String :=
  members.foldl (fun ks m => m.Kinds.foldl addKind ks) []

/-- The agent state that C7 touches: `members`, `kinds`, `activated`
(`activated` is keyed by `pid.ID`, cf. `Agent.addActivated`). -/
structure AgentState where
  members : List Member
  kinds : List String
  activated : List (String × PID)
deriving Repr

/-- Events the membership path broadcasts (`MemberJoinEvent`,
`MemberLeaveEvent`, cluster/event.go). -/
inductive ClusterEvent where
  | memberJoin (m : Member)
  | memberLeave (m : Member)
deriving DecidableEq, Repr

/-- `Agent.memberJoin` (agent.go 228-262): add the member, union its
kinds, (send our topology — a send, not an event) and broadcast one
`MemberJoinEvent`. -/
def memberJoin (st : AgentState) (m : Member) : AgentState × List ClusterEvent :=
  ({ st with
      members := msetAdd st.members m
      kinds := m.Kinds.foldl addKind st.kinds },
   [ClusterEvent.memberJoin m])

/-- `Agent.memberLeave` (agent.go 265-279): remove the member by id,
rebuild the kind set from scratch, drop activated PIDs whose address is
the departed host, broadcast one `MemberLeaveEvent`. -/
def memberLeave (st : AgentState) (m : Member) : AgentState × List ClusterEvent :=
  let members' := st.members.filter (fun x => !(x.ID == m.ID))
  { members := members'
    kinds := rebuildKinds members'
    activated := st.activated.filter (fun e => !(e.2.Address == m.Host)) }
  |> fun st' => (st', [ClusterEvent.memberLeave m])

/-- Fold a per-member step over a list, accumulating events. -/
def stepFold (step : AgentState → Member → AgentState × List ClusterEvent)
    (stE : AgentState × List ClusterEvent) (ms : List Member) :
    AgentState × List ClusterEvent :=
  ms.foldl (fun acc m =>
    let r := step acc.1 m
    (r.1, acc.2 ++ r.2)) stE

/-- `Agent.handleMembers` (agent.go 215-225): compute `joined` and
`left` by id-keyed set difference, process all joins, then all
leaves. -/
def handleMembers (st : AgentState) (newMembers : List Member) :
    AgentState × List ClusterEvent :=
  let joined := msetExcept (newMemberSet newMembers) st.members
  let left := msetExcept st.members newMembers
  stepFold memberLeave (stepFold memberJoin (st, []) joined) left

/-- `strings.Split(id, "/")[0]` — the kind prefix of an activated id
(agent.go 104-110): the characters before the first `/` (the whole id
when it holds no `/`). -/
def kindPrefix (id : String) : String :=
  String.mk (id.data.takeWhile (fun c => !(c == '/')))

/-- The `msg.kind` branch of `Agent.handleGetActive` (agent.go
102-115): all activated PIDs whose id prefix equals the kind. -/
def handleGetActiveKind (activated : List (String × PID)) (k : String) :
    List PID :=
  (activated.filter (fun e => kindPrefix e.1 == k)).map (·.2)

/-- Outcome of an `engine.Request(...).Result()` round trip: `failure`
covers an error/timeout or an unexpected response type, `reply` carries
the responder's value. -/
inductive ReqResult (R : Type) where
  | failure
  | reply (r : R)
deriving DecidableEq, Repr

/-- `Cluster.GetActiveByKind` (activation.go 295-307): on failure or an
empty reply, the one-element slice holding a nil PID; otherwise the
reply. -/
def GetActiveByKind (outcome : ReqResult (List PID)) : List (Option PID) :=
  match outcome with
  | .failure => [none]
  | .reply res => if res.isEmpty then [none] else res.map some

/-- The PID minted by `Engine.Spawn` for kind `k` and id `id` on the
engine at `address` (`newProcess`, types.go 65-66: address and
`kind + "/" + id`). -/
def spawnPID (address k id : String) : PID :=
  ⟨address, k ++ "/" ++ id⟩

/-- `ActivationResponse` (wire message): optional PID plus success
flag. -/
structure ActivationResponse where
  pid : Option PID
  success : Bool
deriving DecidableEq, Repr

/-- `Agent.handleActivationRequest` (agent.go 139-152): refuse if the
kind is not registered locally, otherwise spawn and answer success. -/
def handleActivationRequest (address : String) (localKinds : List String)
    (k id : String) : ActivationResponse :=
  if localKinds.contains k then
    { pid := some (spawnPID address k id), success := true }
  else { pid := none, success := false }

/-- `cluster.ActivationConfig` (activation.go 10-14); the
`selectMember` callback is passed separately to `agentActivate`. -/
structure ActivationConfig where
  id : String
  region : String
deriving DecidableEq, Repr

/-- `Agent.activate` (agent.go 155-212).  `selectMember` abstracts
`config.selectMember` over the kind-filtered member list (`none`
models a nil return); `remoteCall` abstracts the
`engine.Request(activatorPID, req, timeout)` round trip to a non-local
activator.  On the local path the source does not check `Success`; it
returns `resp.PID` directly (nil exactly when `Success` is false). -/
def agentActivate (localAddress : String) (localKinds : List String)
    (members : List Member) (activated : List (String × PID))
    (selectMember : List Member → Option Member)
    (remoteCall : Member → ReqResult ActivationResponse)
    (k : String) (cfg : ActivationConfig) : Option PID :=
  let id := k ++ "/" ++ cfg.id
  if (activated.map (·.1)).contains id then none
  else
    let eligible := FilterByKind members k
    if eligible.isEmpty then none
    else
      match selectMember eligible with
      | none => none
      | some mem =>
        if mem.Host == localAddress then
          (handleActivationRequest localAddress localKinds k cfg.id).pid
        else
          match remoteCall mem with
          | .failure => none
          | .reply r => if r.success then r.pid else none

/-- `Cluster.Activate` (activation.go 207-223): request the agent; on
error/timeout or an unexpected response type return nil, else return
the (possibly nil) PID the agent responded with. -/
def ClusterActivate (outcome : ReqResult (Option PID)) : Option PID :=
  match outcome with
  | .failure => none
  | .reply p => p

end ClusterModel

/-- C6: `GetActiveByKind` always yields a slice of length ≥ 1; on a
failed/timed-out request or when no activated id has prefix `k` it is
exactly `[nil]`; otherwise it is the list of all activated PIDs whose
id prefix (up to the first `/`) equals `k`. -/
theorem c6_get_active_by_kind (activated : List (String × PID)) (k : String)
    (outcome : ReqResult (List PID))
    (hout : outcome = .failure ∨
      outcome = .reply (handleGetActiveKind activated k)) :
    1 ≤ (GetActiveByKind outcome).length ∧
    (outcome = .failure → GetActiveByKind outcome = [none]) ∧
    (handleGetActiveKind activated k = [] → GetActiveByKind outcome = [none]) ∧
    (outcome = .reply (handleGetActiveKind activated k) →
      handleGetActiveKind activated k ≠ [] →
      GetActiveByKind outcome = (handleGetActiveKind activated k).map some) ∧
    (∀ p, p ∈ handleGetActiveKind activated k ↔
      ∃ id, (id, p) ∈ activated ∧ kindPrefix id = k) := by
  refine ⟨?_, ?_, ?_, ?_, ?_⟩
  · rcases hout with h | h <;> subst h
    · simp [GetActiveByKind]
    · unfold GetActiveByKind
      by_cases he : (handleGetActiveKind activated k).isEmpty
      · simp [he]
      · simp only [he, Bool.false_eq_true, if_false, List.length_map]
        have : handleGetActiveKind activated k ≠ [] := by
          simpa [List.isEmpty_iff] using he
        rcases List.exists_cons_of_ne_nil this with ⟨a, l, hl⟩
        simp [hl]
  · intro h; subst h; rfl
  · intro hnil
    rcases hout with h | h <;> subst h
    · rfl
    · simp [GetActiveByKind, hnil]
  · intro h hne
    subst h
    have : (handleGetActiveKind activated k).isEmpty = false := by
      simpa [List.isEmpty_iff] using hne
    simp [GetActiveByKind, this]
  · intro p
    constructor
    · intro hp
      rw [handleGetActiveKind, List.mem_map] at hp
      obtain ⟨e, he, hep⟩ := hp
      rw [List.mem_filter] at he
      subst hep
      exact ⟨e.1, he.1, by simpa using he.2⟩
    · rintro ⟨id, hmem, hpre⟩
      rw [handleGetActiveKind, List.mem_map]
      exact ⟨(id, p), List.mem_filter.2 ⟨hmem, by simpa using hpre⟩, rfl⟩

/-- C6 witness: a concrete activated map queried for kind "player",
plus the failure case. -/
theorem c6_get_active_by_kind_witness :
    GetActiveByKind (.reply (handleGetActiveKind
        [("player/1", ⟨"h:1", "player/1"⟩), ("enemy/2", ⟨"h:2", "enemy/2"⟩),
          ("player/3", ⟨"h:2", "player/3"⟩)] "player")) =
      [some ⟨"h:1", "player/1"⟩, some ⟨"h:2", "player/3"⟩] ∧
    GetActiveByKind (ReqResult.failure : ReqResult (List PID)) = [none] ∧
    GetActiveByKind (.reply (handleGetActiveKind
        [("player/1", ⟨"h:1", "player/1"⟩)] "ghost")) = [none] := by
  refine ⟨?_, ?_, ?_⟩
  · rw [(c6_get_active_by_kind
      [("player/1", ⟨"h:1", "player/1"⟩), ("enemy/2", ⟨"h:2", "enemy/2"⟩),
        ("player/3", ⟨"h:2", "player/3"⟩)] "player" _
      (Or.inr rfl)).2.2.2.1 rfl (by decide)]
    decide
  · exact (c6_get_active_by_kind [] "player" .failure (Or.inl rfl)).2.1 rfl
  · exact (c6_get_active_by_kind [("player/1", ⟨"h:1", "player/1"⟩)] "ghost"
      _ (Or.inr rfl)).2.2.1 (by decide)

/-- C5: `Cluster.Activate` returns nil whenever the id is already
activated, no member advertises the kind, the request to the agent
fails/times out, or the selected activator answers unsuccessfully (or
the request to it fails); otherwise it returns the non-nil PID spawned
by the activator. -/
theorem c5_activate (localAddress : String) (localKinds : List String)
    (members : List Member) (activated : List (String × PID))
    (selectMember : List Member → Option Member)
    (remoteCall : Member → ReqResult ActivationResponse)
    (k : String) (cfg : ActivationConfig)
    (outcome : ReqResult (Option PID))
    (hout : outcome = .failure ∨
      outcome = .reply (agentActivate localAddress localKinds members activated
        selectMember remoteCall k cfg)) :
    (outcome = .failure → ClusterActivate outcome = none) ∧
    ((activated.map (·.1)).contains (k ++ "/" ++ cfg.id) = true →
      ClusterActivate outcome = none) ∧
    (FilterByKind members k = [] → ClusterActivate outcome = none) ∧
    (∀ mem, selectMember (FilterByKind members k) = some mem →
      mem.Host ≠ localAddress → remoteCall mem = .failure →
      ClusterActivate outcome = none) ∧
    (∀ mem r, selectMember (FilterByKind members k) = some mem →
      mem.Host ≠ localAddress → remoteCall mem = .reply r →
      r.success = false → ClusterActivate outcome = none) ∧
    (∀ mem, selectMember (FilterByKind members k) = some mem →
      mem.Host = localAddress → localKinds.contains k = false →
      ClusterActivate outcome = none) ∧
    (outcome = .reply (agentActivate localAddress localKinds members activated
        selectMember remoteCall k cfg) →
      (activated.map (·.1)).contains (k ++ "/" ++ cfg.id) = false →
      FilterByKind members k ≠ [] →
      ∀ mem, selectMember (FilterByKind members k) = some mem →
        (mem.Host = localAddress → localKinds.contains k = true →
          ClusterActivate outcome = some (spawnPID localAddress k cfg.id)) ∧
        (∀ remoteKinds, mem.Host ≠ localAddress →
          remoteCall mem =
            .reply (handleActivationRequest mem.Host remoteKinds k cfg.id) →
          remoteKinds.contains k = true →
          ClusterActivate outcome = some (spawnPID mem.Host k cfg.id))) := by
  refine ⟨?_, ?_, ?_, ?_, ?_, ?_, ?_⟩
  · intro h; subst h; rfl
  · intro hdup
    rcases hout with h | h <;> subst h
    · rfl
    · show agentActivate localAddress localKinds members activated
        selectMember remoteCall k cfg = none
      unfold agentActivate
      simp only [hdup, if_true]
  · intro hempty
    rcases hout with h | h <;> subst h
    · rfl
    · show agentActivate localAddress localKinds members activated
        selectMember remoteCall k cfg = none
      unfold agentActivate
      by_cases hdup : (activated.map (·.1)).contains (k ++ "/" ++ cfg.id)
      · simp only [hdup, if_true]
      · simp only [hdup, Bool.false_eq_true, if_false, hempty,
          List.isEmpty_nil, if_true]
  · intro mem hsel hhost hfail
    rcases hout with h | h <;> subst h
    · rfl
    · show agentActivate localAddress localKinds members activated
        selectMember remoteCall k cfg = none
      unfold agentActivate
      by_cases hdup : (activated.map (·.1)).contains (k ++ "/" ++ cfg.id)
      · simp only [hdup, if_true]
      · have hostb : (mem.Host == localAddress) = false := by simpa using hhost
        by_cases hempty : (FilterByKind members k).isEmpty
        · simp only [hdup, Bool.false_eq_true, if_false, hempty, if_true]
        · simp only [hdup, Bool.false_eq_true, if_false, hempty, if_false,
            hsel, hostb, hfail]
  · intro mem r hsel hhost hreply hfailr
    rcases hout with h | h <;> subst h
    · rfl
    · show agentActivate localAddress localKinds members activated
        selectMember remoteCall k cfg = none
      unfold agentActivate
      by_cases hdup : (activated.map (·.1)).contains (k ++ "/" ++ cfg.id)
      · simp only [hdup, if_true]
      · have hostb : (mem.Host == localAddress) = false := by simpa using hhost
        by_cases hempty : (FilterByKind members k).isEmpty
        · simp only [hdup, Bool.false_eq_true, if_false, hempty, if_true]
        · simp only [hdup, Bool.false_eq_true, if_false, hempty, if_false,
            hsel, hostb, hreply, hfailr]
  · intro mem hsel hhost hnok
    rcases hout with h | h <;> subst h
    · rfl
    · show agentActivate localAddress localKinds members activated
        selectMember remoteCall k cfg = none
      unfold agentActivate
      by_cases hdup : (activated.map (·.1)).contains (k ++ "/" ++ cfg.id)
      · simp only [hdup, if_true]
      · have hostb : (mem.Host == localAddress) = true := by simpa using hhost
        by_cases hempty : (FilterByKind members k).isEmpty
        · simp only [hdup, Bool.false_eq_true, if_false, hempty, if_true]
        · simp only [hdup, Bool.false_eq_true, if_false, hempty, if_false,
            hsel, hostb, if_true, handleActivationRequest, hnok]
  · intro hrep hdup hne mem hsel
    have hempty : (FilterByKind members k).isEmpty = false := by
      simpa [List.isEmpty_iff] using hne
    constructor
    · intro hhost hk
      subst hrep
      show agentActivate localAddress localKinds members activated
        selectMember remoteCall k cfg = some (spawnPID localAddress k cfg.id)
      unfold agentActivate
      have hostb : (mem.Host == localAddress) = true := by simpa using hhost
      simp only [hdup, Bool.false_eq_true, if_false, hempty, hsel, hostb,
        if_true, handleActivationRequest, hk]
    · intro remoteKinds hhost hcall hk
      subst hrep
      show agentActivate localAddress localKinds members activated
        selectMember remoteCall k cfg = some (spawnPID mem.Host k cfg.id)
      unfold agentActivate
      have hostb : (mem.Host == localAddress) = false := by simpa using hhost
      simp only [hdup, Bool.false_eq_true, if_false, hempty, hsel, hostb,
        hcall, handleActivationRequest, hk, if_true]

/-- C5 witness: a two-member cluster activating "player/7" on the local
member, plus the duplicate-id and request-failure nil cases. -/
theorem c5_activate_witness :
    ClusterActivate (.reply (agentActivate "h:1" ["player"]
        [⟨"n1", "h:1", "default", ["player"]⟩,
          ⟨"n2", "h:2", "default", ["player"]⟩] []
        List.head? (fun _ => .failure) "player" ⟨"7", "default"⟩)) =
      some ⟨"h:1", "player/7"⟩ ∧
    ClusterActivate (.reply (agentActivate "h:1" ["player"]
        [⟨"n1", "h:1", "default", ["player"]⟩] [("player/7", ⟨"h:1", "player/7"⟩)]
        List.head? (fun _ => .failure) "player" ⟨"7", "default"⟩)) = none ∧
    ClusterActivate (ReqResult.failure : ReqResult (Option PID)) = none := by
  refine ⟨?_, ?_, ?_⟩
  · exact ((c5_activate "h:1" ["player"]
      [⟨"n1", "h:1", "default", ["player"]⟩, ⟨"n2", "h:2", "default", ["player"]⟩]
      [] List.head? (fun _ => .failure) "player" ⟨"7", "default"⟩ _
      (Or.inr rfl)).2.2.2.2.2.2 rfl (by decide) (by decide)
      ⟨"n1", "h:1", "default", ["player"]⟩ (by decide)).1 rfl (by decide)
  · exact (c5_activate "h:1" ["player"]
      [⟨"n1", "h:1", "default", ["player"]⟩]
      [("player/7", ⟨"h:1", "player/7"⟩)] List.head? (fun _ => .failure)
      "player" ⟨"7", "default"⟩ _ (Or.inr rfl)).2.1 (by decide)
  · exact (c5_activate "h:1" [] [] [] List.head? (fun _ => .failure)
      "player" ⟨"7", "default"⟩ .failure (Or.inl rfl)).1 rfl

section ClusterLemmas

theorem addKind_mem (ks : List String) (k' k : String) :
    k ∈ addKind ks k' ↔ k ∈ ks ∨ k = k' := by
  unfold addKind
  by_cases hc : ks.contains k'
  · rw [if_pos hc]
    constructor
    · exact Or.inl
    · rintro (h | rfl)
      · exact h
      · simpa using hc
  · rw [if_neg hc]
    simp

theorem foldl_addKind_mem (kinds : List String) (init : List String)
    (k : String) :
    k ∈ kinds.foldl addKind init ↔ k ∈ init ∨ k ∈ kinds := by
  induction kinds generalizing init with
  | nil => simp
  | cons k' rest ih =>
    rw [List.foldl_cons, ih, addKind_mem]
    simp only [List.mem_cons]
    tauto

theorem rebuildKinds_mem (ms : List Member) (k : String) :
    k ∈ rebuildKinds ms ↔ ∃ x ∈ ms, k ∈ x.Kinds := by
  suffices h : ∀ init, k ∈ ms.foldl (fun ks m => m.Kinds.foldl addKind ks) init ↔
      k ∈ init ∨ ∃ x ∈ ms, k ∈ x.Kinds by
    rw [rebuildKinds, h]
    simp
  intro init
  induction ms generalizing init with
  | nil => simp
  | cons x rest ih =>
    rw [List.foldl_cons, ih, foldl_addKind_mem]
    simp only [List.mem_cons]
    constructor
    · rintro ((h | h) | ⟨y, hy, hk⟩)
      · exact Or.inl h
      · exact Or.inr ⟨x, Or.inl rfl, h⟩
      · exact Or.inr ⟨y, Or.inr hy, hk⟩
    · rintro (h | ⟨y, (rfl | hy), hk⟩)
      · exact Or.inl (Or.inl h)
      · exact Or.inl (Or.inr hk)
      · exact Or.inr ⟨y, hy, hk⟩

/-- Later leave steps only filter members further. -/
theorem leaveFold_absentID (ms : List Member)
    (stE : AgentState × List ClusterEvent) (i : String)
    (h : ∀ x ∈ stE.1.members, x.ID ≠ i) :
    ∀ x ∈ (stepFold memberLeave stE ms).1.members, x.ID ≠ i := by
  induction ms generalizing stE with
  | nil => exact h
  | cons m rest ih =>
    refine ih _ ?_
    intro x hx
    exact h x (List.mem_filter.1 hx).1

/-- Later leave steps only filter the activated map further. -/
theorem leaveFold_absentHost (ms : List Member)
    (stE : AgentState × List ClusterEvent) (host : String)
    (h : ∀ e ∈ stE.1.activated, e.2.Address ≠ host) :
    ∀ e ∈ (stepFold memberLeave stE ms).1.activated, e.2.Address ≠ host := by
  induction ms generalizing stE with
  | nil => exact h
  | cons m rest ih =>
    refine ih _ ?_
    intro e he
    exact h e (List.mem_filter.1 he).1

/-- Every leave step re-establishes `kinds = rebuildKinds members`. -/
theorem leaveFold_kinds (ms : List Member)
    (stE : AgentState × List ClusterEvent)
    (h : stE.1.kinds = rebuildKinds stE.1.members) :
    (stepFold memberLeave stE ms).1.kinds =
      rebuildKinds (stepFold memberLeave stE ms).1.members := by
  induction ms generalizing stE with
  | nil => exact h
  | cons m rest ih => exact ih _ rfl

/-- A fold of steps that each broadcast one event appends those events
in processing order. -/
theorem stepFold_events
    (step : AgentState → Member → AgentState × List ClusterEvent)
    (f : Member → ClusterEvent)
    (hstep : ∀ st m, (step st m).2 = [f m]) (ms : List Member)
    (stE : AgentState × List ClusterEvent) :
    (stepFold step stE ms).2 = stE.2 ++ ms.map f := by
  induction ms generalizing stE with
  | nil => simp [stepFold]
  | cons m rest ih =>
    show (stepFold step _ rest).2 = _
    rw [ih]
    simp [hstep]

theorem count_eq_one_of_pairwise_ne (l : List Member) (m : Member)
    (hpw : l.Pairwise (fun a b => a.ID ≠ b.ID)) (hm : m ∈ l) :
    l.count m = 1 := by
  induction l with
  | nil => cases hm
  | cons a t ih =>
    rw [List.pairwise_cons] at hpw
    rcases List.mem_cons.1 hm with rfl | hmt
    · rw [List.count_cons_self]
      have : m ∉ t := fun hmem => hpw.1 m hmem rfl
      rw [List.count_eq_zero.2 this]
    · have hne : a ≠ m := by
        intro h
        exact hpw.1 m hmt (by rw [h])
      rw [List.count_cons_of_ne (fun h => hne h.symm), ih hpw.2 hmt]

end ClusterLemmas

/-- C7: after `handleMembers{new}` processes a member `m` in
`known \ new`: no member with `m`'s id remains, the kind set is exactly
the union of the remaining members' kinds, no activated PID has `m`'s
host as its address, and exactly one `MemberLeaveEvent{m}` is
broadcast. -/
theorem c7_member_leave (st : AgentState) (newMembers : List Member)
    (m : Member)
    (huniq : st.members.Pairwise (fun a b => a.ID ≠ b.ID))
    (hm : m ∈ msetExcept st.members newMembers) :
    (∀ x ∈ (handleMembers st newMembers).1.members, x.ID ≠ m.ID) ∧
    (∀ k, k ∈ (handleMembers st newMembers).1.kinds ↔
      ∃ x ∈ (handleMembers st newMembers).1.members, k ∈ x.Kinds) ∧
    (∀ e ∈ (handleMembers st newMembers).1.activated,
      e.2.Address ≠ m.Host) ∧
    (handleMembers st newMembers).2.count (ClusterEvent.memberLeave m) = 1 := by
  obtain ⟨l1, l2, hsplit⟩ := List.append_of_mem hm
  have hhandle : handleMembers st newMembers =
      stepFold memberLeave
        (stepFold memberJoin (st, []) (msetExcept (newMemberSet newMembers) st.members))
        (msetExcept st.members newMembers) := rfl
  set joined := msetExcept (newMemberSet newMembers) st.members with hjoined
  set stJ := stepFold memberJoin (st, []) joined with hstJ
  have hsplitFold : handleMembers st newMembers =
      stepFold memberLeave
        ((memberLeave (stepFold memberLeave stJ l1).1 m).1,
          (stepFold memberLeave stJ l1).2 ++
            (memberLeave (stepFold memberLeave stJ l1).1 m).2) l2 := by
    rw [hhandle, hsplit]
    unfold stepFold
    rw [List.foldl_append]
    rfl
  set stM := (memberLeave (stepFold memberLeave stJ l1).1 m).1 with hstM
  refine ⟨?_, ?_, ?_, ?_⟩
  · -- m's id is gone
    rw [hsplitFold]
    refine leaveFold_absentID l2 _ m.ID ?_
    intro x hx
    have := (List.mem_filter.1 hx).2
    simpa using this
  · -- kinds = union over remaining members
    intro k
    rw [hsplitFold, leaveFold_kinds l2 _ rfl, rebuildKinds_mem]
  · -- no activated entry on m's host
    rw [hsplitFold]
    refine leaveFold_absentHost l2 _ m.Host ?_
    intro e he
    have := (List.mem_filter.1 he).2
    simpa using this
  · -- exactly one MemberLeaveEvent{m}
    have hjevents : stJ.2 = joined.map ClusterEvent.memberJoin :=
      stepFold_events memberJoin ClusterEvent.memberJoin
        (fun _ _ => rfl) joined (st, [])
    have hlevents : (handleMembers st newMembers).2 =
        stJ.2 ++ (msetExcept st.members newMembers).map ClusterEvent.memberLeave := by
      rw [hhandle]
      exact stepFold_events memberLeave ClusterEvent.memberLeave
        (fun _ _ => rfl) _ _
    rw [hlevents, hjevents, List.count_append]
    have h1 : (joined.map ClusterEvent.memberJoin).count
        (ClusterEvent.memberLeave m) = 0 := by
      rw [List.count_eq_zero]
      intro hmem
      rcases List.mem_map.1 hmem with ⟨x, _, hx⟩
      cases hx
    have h2 : ((msetExcept st.members newMembers).map
        ClusterEvent.memberLeave).count (ClusterEvent.memberLeave m) =
        (msetExcept st.members newMembers).count m :=
      List.count_map_of_injective _ _ (fun a b h => by simpa using h) m
    rw [h1, h2, Nat.zero_add]
    exact count_eq_one_of_pairwise_ne _ m (List.Pairwise.filter _ huniq) hm

/-- C7 witness: a two-member known set where `n2` leaves, taking its
activated actor with it. -/
theorem c7_member_leave_witness :
    ((⟨"n2", "h:2", "default", ["enemy"]⟩ : Member) ∈
      msetExcept
        [⟨"n1", "h:1", "default", ["player"]⟩, ⟨"n2", "h:2", "default", ["enemy"]⟩]
        [⟨"n1", "h:1", "default", ["player"]⟩]) ∧
    (∀ e ∈ (handleMembers
        ⟨[⟨"n1", "h:1", "default", ["player"]⟩, ⟨"n2", "h:2", "default", ["enemy"]⟩],
          ["player", "enemy"],
          [("player/1", ⟨"h:1", "player/1"⟩), ("enemy/2", ⟨"h:2", "enemy/2"⟩)]⟩
        [⟨"n1", "h:1", "default", ["player"]⟩]).1.activated,
      e.2.Address ≠ "h:2") ∧
    (handleMembers
        ⟨[⟨"n1", "h:1", "default", ["player"]⟩, ⟨"n2", "h:2", "default", ["enemy"]⟩],
          ["player", "enemy"],
          [("player/1", ⟨"h:1", "player/1"⟩), ("enemy/2", ⟨"h:2", "enemy/2"⟩)]⟩
        [⟨"n1", "h:1", "default", ["player"]⟩]).2.count
      (ClusterEvent.memberLeave ⟨"n2", "h:2", "default", ["enemy"]⟩) = 1 := by
  have h := c7_member_leave
    ⟨[⟨"n1", "h:1", "default", ["player"]⟩, ⟨"n2", "h:2", "default", ["enemy"]⟩],
      ["player", "enemy"],
      [("player/1", ⟨"h:1", "player/1"⟩), ("enemy/2", ⟨"h:2", "enemy/2"⟩)]⟩
    [⟨"n1", "h:1", "default", ["player"]⟩]
    ⟨"n2", "h:2", "default", ["enemy"]⟩
    (by decide) (by decide)
  exact ⟨by decide, h.2.2.1, h.2.2.2⟩

section StreamModel

/-!
## C9 / C10: the stream writer's per-batch interning

`streamWriter.Invoke` and `lookupPIDs` / `lookupTypeName` (the stream
writer file of the remote package), `PID.LookupKey` (registry.go
111-116) and the decode side `streamReader.Receive` (remote.go
186-217).

`PID.LookupKey` is `xxh3.Hash` of the concatenation of `Address` and
`ID`.  `hashBytes` below is a stand-in for the external `xxh3.Hash`
(modelled from the spec: "a hash key is derived from concatenating
address and id"); every property proved here uses only the fact that
the key is a *function of the concatenated bytes*, which holds for
xxh3 as for the stand-in.  Go's `map[uint64]int32` tables are
association lists; the serializer is abstracted by a `typeName`
function, with `Serialize`/`Deserialize` the identity on the opaque
payload (the spec's round-trip law for registered types). -/

/-- Stand-in for `xxh3.Hash` on the bytes of a string. -/
def hashBytes (s : String) : Nat :=
  s.data.foldl (fun h c => (h * 31 + c.toNat) % (2 ^ 64)) 5381

/-- `PID.LookupKey` (registry.go 111-116): hash of `Address ++ ID`. -/
def LookupKey (pid : PID) : Nat :=
  hashBytes (pid.Address ++ pid.ID)

/-- Go map lookup on an association list. -/
def mapGet : List (Nat × Nat) → Nat → Option Nat
  | [], _ => none
  | (k, v) :: rest, key => if k == key then some v else mapGet rest key

/-- `streamDeliver` (remote stream router file): sender, target and
payload handed to the writer. Payloads are opaque (`Nat`). -/
structure StreamDeliver where
  sender : Option PID
  target : PID
  msg : Nat
deriving DecidableEq, Repr

/-- Wire `Message`: serialized data plus intern-table indices. -/
structure WMessage where
  data : Nat
  typeNameIndex : Nat
  senderIndex : Nat
  targetIndex : Nat
deriving DecidableEq, Repr

/-- Wire `Envelope`: the per-batch intern tables plus the messages. -/
structure WEnvelope where
  senders : List PID
  targets : List PID
  typeNames : List String
  messages : List WMessage
deriving DecidableEq, Repr

/-- `lookupPIDs` (stream writer file, 217-231): a nil PID maps to
index 0 without touching the table; a known key returns its index; an
unknown key is assigned index `len(m)` and the PID is appended. -/
def lookupPIDs (m : List (Nat × Nat)) (pid : Option PID) (pids : List PID) :
    Nat × List (Nat × Nat) × List PID :=
  match pid with
  | none => (0, m, pids)
  | some p =>
    let mx := m.length
    let key := LookupKey p
    match mapGet m key with
    | some id => (id, m, pids)
    | none => (mx, (key, mx) :: m, pids ++ [p])

/-- `lookupTypeName` (stream writer file, 234-243). -/
def lookupTypeName (m : List (String × Nat)) (name : String)
    (types : List String) : Nat × List (String × Nat) × List String :=
  let mx := m.length
  match m.lookup name with
  | some id => (id, m, types)
  | none => (mx, (name, mx) :: m, types ++ [name])

/-- The accumulating state of `streamWriter.Invoke`'s loop. -/
structure InvokeAcc where
  typeLookup : List (String × Nat)
  typeNames : List String
  senderLookup : List (Nat × Nat)
  senders : List PID
  targetLookup : List (Nat × Nat)
  targets : List PID
  messages : List WMessage

/-- One iteration of the loop in `streamWriter.Invoke` (61-95). -/
def writerStep (typeName : Nat → String) (acc : InvokeAcc)
    (sd : StreamDeliver) : InvokeAcc :=
  let t := lookupTypeName acc.typeLookup (typeName sd.msg) acc.typeNames
  let s := lookupPIDs acc.senderLookup sd.sender acc.senders
  let g := lookupPIDs acc.targetLookup (some sd.target) acc.targets
  { typeLookup := t.2.1, typeNames := t.2.2
    senderLookup := s.2.1, senders := s.2.2
    targetLookup := g.2.1, targets := g.2.2
    messages := acc.messages ++ [⟨sd.msg, t.1, s.1, g.1⟩] }

/-- `streamWriter.Invoke` (61-118): build the per-batch tables and the
message array, then emit one envelope. -/
def writerInvoke (typeName : Nat → String) (msgs : List StreamDeliver) :
    WEnvelope :=
  let acc := msgs.foldl (writerStep typeName)
    ⟨[], [], [], [], [], [], []⟩
  ⟨acc.senders, acc.targets, acc.typeNames, acc.messages⟩

/-- Placeholder PID for (never-taken in source) out-of-bounds reads. -/
def dummyPID : PID := ⟨"", ""⟩

/-- The decode of one wire message by `streamReader.Receive` (remote.go
199-213): resolve the target by index, the payload by deserialization,
and the sender by index — but only when the batch's sender table is
non-empty, else nil. Result: (target, payload, sender). -/
def readerDecode (env : WEnvelope) (msg : WMessage) :
    PID × Nat × Option PID :=
  (env.targets.getD msg.targetIndex dummyPID, msg.data,
    if 0 < env.senders.length then
      some (env.senders.getD msg.senderIndex dummyPID)
    else none)

/-- All local deliveries (`Engine.SendLocal` calls) made by the reader
for one envelope, in order. -/
def readerDeliveries (env : WEnvelope) : List (PID × Nat × Option PID) :=
  env.messages.map (readerDecode env)

end StreamModel

section StreamLemmas

theorem getD_append_left {α : Type} (l l' : List α) (i : Nat) (d : α)
    (h : i < l.length) : (l ++ l').getD i d = l.getD i d := by
  induction l generalizing i with
  | nil => cases h
  | cons a t ih =>
    cases i with
    | zero => rfl
    | succ i => exact ih i (by simpa using h)

theorem getD_concat_self {α : Type} (l : List α) (x : α) (d : α) :
    (l ++ [x]).getD l.length d = x := by
  induction l with
  | nil => rfl
  | cons a t ih => exact ih

/-- The invariant of one interning table: as many entries as interned
PIDs, every entry points at a PID bearing its key, and every interned
PID's key maps back to its own index (keys are unique). -/
structure TableInv (m : List (Nat × Nat)) (pids : List PID) : Prop where
  len : m.length = pids.length
  get : ∀ k i, mapGet m k = some i →
    i < pids.length ∧ LookupKey (pids.getD i dummyPID) = k
  idx : ∀ i, i < pids.length →
    mapGet m (LookupKey (pids.getD i dummyPID)) = some i

theorem tableInv_empty : TableInv [] [] := by
  refine ⟨rfl, ?_, ?_⟩
  · intro k i h; cases h
  · intro i h; cases h

/-- The table never assigns one index to two different keys. -/
theorem tableInv_key_inj {m : List (Nat × Nat)} {pids : List PID}
    (hInv : TableInv m pids) (i j : Nat) (hi : i < pids.length)
    (hj : j < pids.length)
    (hk : LookupKey (pids.getD i dummyPID) = LookupKey (pids.getD j dummyPID)) :
    i = j := by
  have h1 := hInv.idx i hi
  have h2 := hInv.idx j hj
  rw [hk] at h1
  rw [h1] at h2
  simpa using h2

theorem lookupPIDs_found (m : List (Nat × Nat)) (p : PID) (pids : List PID)
    (id : Nat) (hfind : mapGet m (LookupKey p) = some id) :
    lookupPIDs m (some p) pids = (id, m, pids) := by
  unfold lookupPIDs
  dsimp only
  rw [hfind]

theorem lookupPIDs_new (m : List (Nat × Nat)) (p : PID) (pids : List PID)
    (hfind : mapGet m (LookupKey p) = none) :
    lookupPIDs m (some p) pids =
      (m.length, (LookupKey p, m.length) :: m, pids ++ [p]) := by
  unfold lookupPIDs
  dsimp only
  rw [hfind]

/-- `lookupPIDs` on a non-nil PID preserves the invariant, only appends
to the PID table, and returns an index holding a key-equal PID. -/
theorem lookupPIDs_step (m : List (Nat × Nat)) (p : PID) (pids : List PID)
    (hInv : TableInv m pids) :
    TableInv (lookupPIDs m (some p) pids).2.1 (lookupPIDs m (some p) pids).2.2 ∧
    ((lookupPIDs m (some p) pids).2.2 = pids ∨
      (lookupPIDs m (some p) pids).2.2 = pids ++ [p]) ∧
    (lookupPIDs m (some p) pids).1 < (lookupPIDs m (some p) pids).2.2.length ∧
    LookupKey ((lookupPIDs m (some p) pids).2.2.getD
      (lookupPIDs m (some p) pids).1 dummyPID) = LookupKey p ∧
    (∀ x ∈ (lookupPIDs m (some p) pids).2.2, x ∈ pids ∨ x = p) := by
  cases hfind : mapGet m (LookupKey p) with
  | some id =>
    rw [lookupPIDs_found m p pids id hfind]
    obtain ⟨hid, hkey⟩ := hInv.get _ _ hfind
    exact ⟨hInv, Or.inl rfl, hid, hkey, fun x hx => Or.inl hx⟩
  | none =>
    rw [lookupPIDs_new m p pids hfind]
    have hlen' : ((LookupKey p, m.length) :: m).length = (pids ++ [p]).length := by
      simp [hInv.len]
    refine ⟨⟨hlen', ?_, ?_⟩, Or.inr rfl, ?_, ?_, ?_⟩
    · intro k i hget
      unfold mapGet at hget
      by_cases hkp : (LookupKey p == k) = true
      · rw [if_pos hkp] at hget
        have hk : k = LookupKey p := ((beq_iff_eq).1 hkp).symm
        have hi : i = m.length := (by simpa using hget : m.length = i).symm
        subst hk hi
        rw [hInv.len, getD_concat_self]
        simp [hInv.len]
      · rw [if_neg hkp] at hget
        obtain ⟨hi, hkey⟩ := hInv.get _ _ hget
        refine ⟨by simp; omega, ?_⟩
        rw [getD_append_left _ _ _ _ hi, hkey]
    · intro i hi
      rw [List.length_append, List.length_singleton] at hi
      by_cases hilt : i < pids.length
      · rw [getD_append_left _ _ _ _ hilt]
        have hidx := hInv.idx i hilt
        show (if (LookupKey p == LookupKey (pids.getD i dummyPID)) = true
          then some m.length else mapGet m (LookupKey (pids.getD i dummyPID)))
          = some i
        have hne : (LookupKey p == LookupKey (pids.getD i dummyPID)) = false := by
          rw [beq_eq_false_iff_ne]
          intro heq
          rw [← heq, hfind] at hidx
          cases hidx
        rw [hne]
        simpa using hidx
      · have hieq : i = pids.length := by omega
        subst hieq
        rw [getD_concat_self]
        show (if (LookupKey p == LookupKey p) = true
          then some m.length else mapGet m (LookupKey p)) = some pids.length
        rw [if_pos (by simp), hInv.len]
    · rw [List.length_append, List.length_singleton, hInv.len]
      omega
    · rw [hInv.len, getD_concat_self]
    · intro x hx
      rcases List.mem_append.1 hx with h | h
      · exact Or.inl h
      · exact Or.inr (by simpa using h)

theorem lookupPIDs_none (m : List (Nat × Nat)) (pids : List PID) :
    lookupPIDs m none pids = (0, m, pids) := rfl

/-- What one encoded message guarantees relative to the tables: the
payload survives, a nil sender encodes as index 0, a non-nil sender and
the target encode as in-range indices holding key-equal PIDs. -/
def MsgSpec (senders targets : List PID) (sd : StreamDeliver)
    (wm : WMessage) : Prop :=
  wm.data = sd.msg ∧
  (sd.sender = none → wm.senderIndex = 0) ∧
  (∀ p, sd.sender = some p → wm.senderIndex < senders.length ∧
    LookupKey (senders.getD wm.senderIndex dummyPID) = LookupKey p) ∧
  wm.targetIndex < targets.length ∧
  LookupKey (targets.getD wm.targetIndex dummyPID) = LookupKey sd.target

theorem msgSpec_extend (senders targets e1 e2 : List PID)
    (sd : StreamDeliver) (wm : WMessage)
    (h : MsgSpec senders targets sd wm) :
    MsgSpec (senders ++ e1) (targets ++ e2) sd wm := by
  obtain ⟨hd, hn, hsome, htl, htk⟩ := h
  refine ⟨hd, hn, ?_, ?_, ?_⟩
  · intro p hp
    obtain ⟨hlt, hk⟩ := hsome p hp
    refine ⟨by rw [List.length_append]; omega, ?_⟩
    rw [getD_append_left _ _ _ _ hlt, hk]
  · rw [List.length_append]; omega
  · rw [getD_append_left _ _ _ _ htl, htk]

/-- `streamWriter.Invoke`'s loop from an accumulator. -/
def writerFold (typeName : Nat → String) (acc : InvokeAcc)
    (rest : List StreamDeliver) : InvokeAcc :=
  rest.foldl (writerStep typeName) acc

/-- The loop preserves the table invariants, only appends to the PID
tables (so earlier indices stay valid), interns only PIDs drawn from
the batch, and encodes every message of the batch per `MsgSpec`. -/
theorem writerFold_spec (typeName : Nat → String)
    (rest : List StreamDeliver) (acc : InvokeAcc)
    (hs : TableInv acc.senderLookup acc.senders)
    (ht : TableInv acc.targetLookup acc.targets) :
    TableInv (writerFold typeName acc rest).senderLookup
      (writerFold typeName acc rest).senders ∧
    TableInv (writerFold typeName acc rest).targetLookup
      (writerFold typeName acc rest).targets ∧
    (∃ ext, (writerFold typeName acc rest).senders = acc.senders ++ ext) ∧
    (∃ ext, (writerFold typeName acc rest).targets = acc.targets ++ ext) ∧
    (∀ x ∈ (writerFold typeName acc rest).senders,
      x ∈ acc.senders ∨ ∃ sd ∈ rest, sd.sender = some x) ∧
    (∀ x ∈ (writerFold typeName acc rest).targets,
      x ∈ acc.targets ∨ ∃ sd ∈ rest, sd.target = x) ∧
    (∃ newMsgs, (writerFold typeName acc rest).messages =
        acc.messages ++ newMsgs ∧
      newMsgs.length = rest.length ∧
      ∀ j (hj : j < rest.length),
        MsgSpec (writerFold typeName acc rest).senders
          (writerFold typeName acc rest).targets
          (rest.get ⟨j, hj⟩) (newMsgs.getD j ⟨0, 0, 0, 0⟩)) := by
  induction rest generalizing acc with
  | nil =>
    refine ⟨hs, ht, ⟨[], by simp [writerFold]⟩, ⟨[], by simp [writerFold]⟩,
      fun x hx => Or.inl hx, fun x hx => Or.inl hx,
      ⟨[], by simp [writerFold], rfl, fun j hj => by cases hj⟩⟩
  | cons sd rest' ih =>
    -- facts about the single step
    have hsStep : TableInv (writerStep typeName acc sd).senderLookup
        (writerStep typeName acc sd).senders ∧
        ((writerStep typeName acc sd).senders = acc.senders ∨
          ∃ p, sd.sender = some p ∧
            (writerStep typeName acc sd).senders = acc.senders ++ [p]) ∧
        (∀ x ∈ (writerStep typeName acc sd).senders,
          x ∈ acc.senders ∨ sd.sender = some x) := by
      cases hsd : sd.sender with
      | none =>
        refine ⟨?_, Or.inl ?_, ?_⟩
        · show TableInv (lookupPIDs acc.senderLookup sd.sender acc.senders).2.1
            (lookupPIDs acc.senderLookup sd.sender acc.senders).2.2
          rw [hsd, lookupPIDs_none]
          exact hs
        · show (lookupPIDs acc.senderLookup sd.sender acc.senders).2.2 = _
          rw [hsd, lookupPIDs_none]
        · intro x hx
          rw [show (writerStep typeName acc sd).senders =
            (lookupPIDs acc.senderLookup sd.sender acc.senders).2.2 from rfl,
            hsd, lookupPIDs_none] at hx
          exact Or.inl hx
      | some p =>
        have hstep := lookupPIDs_step acc.senderLookup p acc.senders hs
        refine ⟨?_, ?_, ?_⟩
        · show TableInv (lookupPIDs acc.senderLookup sd.sender acc.senders).2.1
            (lookupPIDs acc.senderLookup sd.sender acc.senders).2.2
          rw [hsd]
          exact hstep.1
        · rcases hstep.2.1 with h | h
          · exact Or.inl (by
              show (lookupPIDs acc.senderLookup sd.sender acc.senders).2.2 = _
              rw [hsd]; exact h)
          · exact Or.inr ⟨p, rfl, by
              show (lookupPIDs acc.senderLookup sd.sender acc.senders).2.2 = _
              rw [hsd]; exact h⟩
        · intro x hx
          rw [show (writerStep typeName acc sd).senders =
            (lookupPIDs acc.senderLookup sd.sender acc.senders).2.2 from rfl,
            hsd] at hx
          rcases hstep.2.2.2.2 x hx with h | h
          · exact Or.inl h
          · exact Or.inr (by rw [h])
    have htStepAll := lookupPIDs_step acc.targetLookup sd.target acc.targets ht
    have htStep : TableInv (writerStep typeName acc sd).targetLookup
        (writerStep typeName acc sd).targets := htStepAll.1
    have htGrow : (writerStep typeName acc sd).targets = acc.targets ∨
        (writerStep typeName acc sd).targets = acc.targets ++ [sd.target] :=
      htStepAll.2.1
    have htProv : ∀ x ∈ (writerStep typeName acc sd).targets,
        x ∈ acc.targets ∨ x = sd.target := htStepAll.2.2.2.2
    -- the new message satisfies MsgSpec w.r.t. the post-step tables
    have hwm : MsgSpec (writerStep typeName acc sd).senders
        (writerStep typeName acc sd).targets sd
        ⟨sd.msg,
          (lookupTypeName acc.typeLookup (typeName sd.msg) acc.typeNames).1,
          (lookupPIDs acc.senderLookup sd.sender acc.senders).1,
          (lookupPIDs acc.targetLookup (some sd.target) acc.targets).1⟩ := by
      refine ⟨rfl, ?_, ?_, htStepAll.2.2.1, htStepAll.2.2.2.1⟩
      · intro hnone
        show (lookupPIDs acc.senderLookup sd.sender acc.senders).1 = 0
        rw [hnone, lookupPIDs_none]
      · intro p hp
        have hstep := lookupPIDs_step acc.senderLookup p acc.senders hs
        constructor
        · show (lookupPIDs acc.senderLookup sd.sender acc.senders).1 <
            (lookupPIDs acc.senderLookup sd.sender acc.senders).2.2.length
          rw [hp]
          exact hstep.2.2.1
        · show LookupKey
            ((lookupPIDs acc.senderLookup sd.sender acc.senders).2.2.getD
              (lookupPIDs acc.senderLookup sd.sender acc.senders).1 dummyPID) =
            LookupKey p
          rw [hp]
          exact hstep.2.2.2.1
    -- apply the induction hypothesis after the step
    obtain ⟨ihs, iht, ⟨es, hes⟩, ⟨et, het⟩, ihps, ihpt, ⟨nm, hnm, hnml, hnms⟩⟩ :=
      ih (writerStep typeName acc sd) hsStep.1 htStep
    have hfold : writerFold typeName acc (sd :: rest') =
        writerFold typeName (writerStep typeName acc sd) rest' := rfl
    rw [hfold]
    refine ⟨ihs, iht, ?_, ?_, ?_, ?_, ?_⟩
    · rcases hsStep.2.1 with h | ⟨p, _, h⟩
      · exact ⟨es, by rw [hes, h]⟩
      · exact ⟨[p] ++ es, by rw [hes, h, List.append_assoc]⟩
    · rcases htGrow with h | h
      · exact ⟨et, by rw [het, h]⟩
      · exact ⟨[sd.target] ++ et, by rw [het, h, List.append_assoc]⟩
    · intro x hx
      rcases ihps x hx with h | ⟨sd', hsd', hx'⟩
      · rcases hsStep.2.2 x h with h2 | h2
        · exact Or.inl h2
        · exact Or.inr ⟨sd, List.mem_cons_self sd rest', h2⟩
      · exact Or.inr ⟨sd', List.mem_cons_of_mem sd hsd', hx'⟩
    · intro x hx
      rcases ihpt x hx with h | ⟨sd', hsd', hx'⟩
      · rcases htProv x h with h2 | h2
        · exact Or.inl h2
        · exact Or.inr ⟨sd, List.mem_cons_self sd rest', h2.symm⟩
      · exact Or.inr ⟨sd', List.mem_cons_of_mem sd hsd', hx'⟩
    · refine ⟨⟨sd.msg,
          (lookupTypeName acc.typeLookup (typeName sd.msg) acc.typeNames).1,
          (lookupPIDs acc.senderLookup sd.sender acc.senders).1,
          (lookupPIDs acc.targetLookup (some sd.target) acc.targets).1⟩ :: nm,
        ?_, by simpa using hnml, ?_⟩
      · rw [hnm]
        show (writerStep typeName acc sd).messages ++ nm = _
        rw [show (writerStep typeName acc sd).messages = acc.messages ++
          [⟨sd.msg,
            (lookupTypeName acc.typeLookup (typeName sd.msg) acc.typeNames).1,
            (lookupPIDs acc.senderLookup sd.sender acc.senders).1,
            (lookupPIDs acc.targetLookup (some sd.target) acc.targets).1⟩]
          from rfl]
        rw [List.append_assoc]
        rfl
      · intro j hj
        cases j with
        | zero =>
          show MsgSpec _ _ sd _
          have hext : MsgSpec ((writerStep typeName acc sd).senders ++ es)
              ((writerStep typeName acc sd).targets ++ et) sd _ :=
            msgSpec_extend _ _ es et sd _ hwm
          rw [← hes, ← het] at hext
          exact hext
        | succ j' =>
          have hj' : j' < rest'.length := by simpa using hj
          exact hnms j' hj'

theorem getD_map {α β : Type} (f : α → β) (l : List α) (j : Nat)
    (d : β) (d' : α) (h : j < l.length) :
    (l.map f).getD j d = f (l.getD j d') := by
  induction l generalizing j with
  | nil => cases h
  | cons a t ih =>
    cases j with
    | zero => rfl
    | succ j => exact ih j (by simpa using h)

theorem getD_mem {α : Type} (l : List α) (i : Nat) (d : α)
    (h : i < l.length) : l.getD i d ∈ l := by
  induction l generalizing i with
  | nil => cases h
  | cons a t ih =>
    cases i with
    | zero => exact List.mem_cons_self a t
    | succ i => exact List.mem_cons_of_mem a (ih i (by simpa using h))

/-- Placeholder delivery for out-of-bounds reads. -/
def dummyDelivery : PID × Nat × Option PID := (dummyPID, 0, none)

/-- The empty accumulator `streamWriter.Invoke` starts from. -/
def emptyAcc : InvokeAcc := ⟨[], [], [], [], [], [], []⟩

theorem writerInvoke_eq (typeName : Nat → String)
    (msgs : List StreamDeliver) :
    writerInvoke typeName msgs =
      ⟨(writerFold typeName emptyAcc msgs).senders,
        (writerFold typeName emptyAcc msgs).targets,
        (writerFold typeName emptyAcc msgs).typeNames,
        (writerFold typeName emptyAcc msgs).messages⟩ := rfl

end StreamLemmas

/-- C9 counterexample: in the batch `[{sender: nil}, {sender: s}]` both
messages get `SenderIndex` 0, and because the batch's sender table is
non-empty the reader resolves the first message's sender to `s` — a
message enqueued with a nil sender is not delivered with a nil
sender. -/
theorem c9_counterexample :
    (writerInvoke (fun _ => "int")
        [⟨none, ⟨"h:2", "echo/1"⟩, 1⟩,
          ⟨some ⟨"h:1", "player/1"⟩, ⟨"h:2", "echo/1"⟩, 2⟩]).senders =
      [⟨"h:1", "player/1"⟩] ∧
    readerDeliveries (writerInvoke (fun _ => "int")
        [⟨none, ⟨"h:2", "echo/1"⟩, 1⟩,
          ⟨some ⟨"h:1", "player/1"⟩, ⟨"h:2", "echo/1"⟩, 2⟩]) =
      [(⟨"h:2", "echo/1"⟩, 1, some ⟨"h:1", "player/1"⟩),
        (⟨"h:2", "echo/1"⟩, 2, some ⟨"h:1", "player/1"⟩)] ∧
    ¬ ((readerDeliveries (writerInvoke (fun _ => "int")
        [⟨none, ⟨"h:2", "echo/1"⟩, 1⟩,
          ⟨some ⟨"h:1", "player/1"⟩, ⟨"h:2", "echo/1"⟩, 2⟩])).map
          (fun d => d.2.2) =
      [none, some ⟨"h:1", "player/1"⟩]) := by
  decide

/-- C10 counterexample: the distinct targets `{Address:"ab", ID:"c"}`
and `{Address:"a", ID:"bc"}` concatenate to the same bytes, so
`LookupKey` coincides, both messages get `TargetIndex` 0, and the
second message is delivered to the first target. -/
theorem c10_counterexample :
    LookupKey ⟨"ab", "c"⟩ = LookupKey ⟨"a", "bc"⟩ ∧
    (⟨"ab", "c"⟩ : PID) ≠ ⟨"a", "bc"⟩ ∧
    readerDeliveries (writerInvoke (fun _ => "int")
        [⟨none, ⟨"ab", "c"⟩, 1⟩, ⟨none, ⟨"a", "bc"⟩, 2⟩]) =
      [(⟨"ab", "c"⟩, 1, none), (⟨"ab", "c"⟩, 2, none)] ∧
    ¬ ((readerDeliveries (writerInvoke (fun _ => "int")
        [⟨none, ⟨"ab", "c"⟩, 1⟩, ⟨none, ⟨"a", "bc"⟩, 2⟩])).map
          (fun d => d.1) =
      [⟨"ab", "c"⟩, ⟨"a", "bc"⟩]) := by
  decide

/-- Everything an envelope built by `streamWriter.Invoke` guarantees:
one wire message per batch message, tables populated only from the
batch, per-message `MsgSpec`, and injectivity of `LookupKey` on each
table. -/
theorem writer_envelope_spec (typeName : Nat → String)
    (msgs : List StreamDeliver) :
    (writerInvoke typeName msgs).messages.length = msgs.length ∧
    (∀ x ∈ (writerInvoke typeName msgs).senders,
      ∃ sd ∈ msgs, sd.sender = some x) ∧
    (∀ x ∈ (writerInvoke typeName msgs).targets,
      ∃ sd ∈ msgs, sd.target = x) ∧
    (∀ j (hj : j < msgs.length),
      MsgSpec (writerInvoke typeName msgs).senders
        (writerInvoke typeName msgs).targets (msgs.get ⟨j, hj⟩)
        ((writerInvoke typeName msgs).messages.getD j ⟨0, 0, 0, 0⟩)) ∧
    (∀ i j, i < (writerInvoke typeName msgs).senders.length →
      j < (writerInvoke typeName msgs).senders.length →
      LookupKey ((writerInvoke typeName msgs).senders.getD i dummyPID) =
        LookupKey ((writerInvoke typeName msgs).senders.getD j dummyPID) →
      i = j) ∧
    (∀ i j, i < (writerInvoke typeName msgs).targets.length →
      j < (writerInvoke typeName msgs).targets.length →
      LookupKey ((writerInvoke typeName msgs).targets.getD i dummyPID) =
        LookupKey ((writerInvoke typeName msgs).targets.getD j dummyPID) →
      i = j) := by
  obtain ⟨hsInv, htInv, _, _, hps, hpt, ⟨nm, hnm, hnml, hnms⟩⟩ :=
    writerFold_spec typeName msgs emptyAcc tableInv_empty tableInv_empty
  have hsenders : (writerInvoke typeName msgs).senders =
      (writerFold typeName emptyAcc msgs).senders := rfl
  have htargets : (writerInvoke typeName msgs).targets =
      (writerFold typeName emptyAcc msgs).targets := rfl
  have hmsgs : (writerInvoke typeName msgs).messages = nm := by
    show (writerFold typeName emptyAcc msgs).messages = nm
    rw [hnm]
    rfl
  refine ⟨?_, ?_, ?_, ?_, ?_, ?_⟩
  · rw [hmsgs, hnml]
  · intro x hx
    rw [hsenders] at hx
    rcases hps x hx with h | h
    · cases h
    · exact h
  · intro x hx
    rw [htargets] at hx
    rcases hpt x hx with h | h
    · cases h
    · exact h
  · intro j hj
    rw [hsenders, htargets, hmsgs]
    exact hnms j hj
  · intro i j hi hj hk
    rw [hsenders] at hi hj hk
    exact tableInv_key_inj hsInv i j hi hj hk
  · intro i j hi hj hk
    rw [htargets] at hi hj hk
    exact tableInv_key_inj htInv i j hi hj hk

/-- C9 amended: encode-then-decode preserves a message's sender when
the sender is non-nil (given `LookupKey`-injectivity on the batch's
senders), and preserves nil senders exactly when the whole batch is
anonymous (the `Senders` table is then empty); a nil-sender message in
a batch whose sender table is non-empty is delivered with the sender
interned at table index 0 instead of nil. -/
theorem c9_sender_roundtrip (typeName : Nat → String)
    (msgs : List StreamDeliver) :
    (readerDeliveries (writerInvoke typeName msgs)).length = msgs.length ∧
    ((∀ sd ∈ msgs, sd.sender = none) →
      ∀ d ∈ readerDeliveries (writerInvoke typeName msgs), d.2.2 = none) ∧
    ((∀ p q : PID, (∃ sd ∈ msgs, sd.sender = some p) →
        (∃ sd ∈ msgs, sd.sender = some q) →
        LookupKey p = LookupKey q → p = q) →
      ∀ j (hj : j < msgs.length) p, (msgs.get ⟨j, hj⟩).sender = some p →
        ((readerDeliveries (writerInvoke typeName msgs)).getD j
          dummyDelivery).2.2 = some p) ∧
    (∀ j (hj : j < msgs.length), (msgs.get ⟨j, hj⟩).sender = none →
      (∃ j', ∃ hj' : j' < msgs.length, ∃ p',
        (msgs.get ⟨j', hj'⟩).sender = some p') →
      ((readerDeliveries (writerInvoke typeName msgs)).getD j
        dummyDelivery).2.2 =
        some ((writerInvoke typeName msgs).senders.getD 0 dummyPID)) := by
  obtain ⟨hlen, hprovS, _, hspec, hinjS, _⟩ :=
    writer_envelope_spec typeName msgs
  have hdel : ∀ j, j < msgs.length →
      (readerDeliveries (writerInvoke typeName msgs)).getD j dummyDelivery =
        readerDecode (writerInvoke typeName msgs)
          ((writerInvoke typeName msgs).messages.getD j ⟨0, 0, 0, 0⟩) := by
    intro j hj
    exact getD_map _ _ j _ _ (by rw [hlen]; exact hj)
  refine ⟨?_, ?_, ?_, ?_⟩
  · rw [readerDeliveries, List.length_map, hlen]
  · intro hall d hd
    have hempty : (writerInvoke typeName msgs).senders = [] := by
      rcases hx : (writerInvoke typeName msgs).senders with _ | ⟨x, rest⟩
      · rfl
      · exfalso
        obtain ⟨sd, hsd, hsome⟩ := hprovS x (by rw [hx]; exact List.mem_cons_self x rest)
        rw [hall sd hsd] at hsome
        cases hsome
    rcases List.mem_map.1 hd with ⟨wm, _, hwm⟩
    rw [← hwm]
    show (if 0 < (writerInvoke typeName msgs).senders.length then _ else none) = none
    rw [hempty]
    rfl
  · intro hnc j hj p hp
    obtain ⟨_, _, hsome, _, _⟩ := hspec j hj
    obtain ⟨hlt, hkey⟩ := hsome p hp
    rw [hdel j hj]
    show (if 0 < (writerInvoke typeName msgs).senders.length then
      some ((writerInvoke typeName msgs).senders.getD _ dummyPID) else none) = some p
    rw [if_pos (by omega)]
    have hx : (writerInvoke typeName msgs).senders.getD
        ((writerInvoke typeName msgs).messages.getD j ⟨0,0,0,0⟩).senderIndex
        dummyPID ∈ (writerInvoke typeName msgs).senders :=
      getD_mem _ _ _ hlt
    obtain ⟨sd', hsd', hx'⟩ := hprovS _ hx
    have : (writerInvoke typeName msgs).senders.getD
        ((writerInvoke typeName msgs).messages.getD j ⟨0,0,0,0⟩).senderIndex
        dummyPID = p := by
      refine hnc _ p ⟨sd', hsd', hx'⟩ ?_ hkey
      exact ⟨msgs.get ⟨j, hj⟩, msgs.get_mem j hj, hp⟩
    rw [this]
  · intro j hj hnone hex
    obtain ⟨j', hj', p', hp'⟩ := hex
    obtain ⟨_, hzero, _, _, _⟩ := hspec j hj
    obtain ⟨_, _, hsome', _, _⟩ := hspec j' hj'
    obtain ⟨hlt', _⟩ := hsome' p' hp'
    rw [hdel j hj]
    show (if 0 < (writerInvoke typeName msgs).senders.length then
      some ((writerInvoke typeName msgs).senders.getD _ dummyPID) else none) = _
    rw [if_pos (by omega), hzero hnone]

/-- C10 amended: `LookupKey` is a function of the concatenation
`Address ++ ID`, so the per-batch interning assigns two messages the
same target index exactly when their targets' keys coincide — distinct
PIDs with identical concatenations share one table slot (and resolve
to whichever was interned first, cf. the counterexample); only when no
two distinct target PIDs of the batch share a key does every message's
`TargetIndex` resolve to exactly the enqueued target. -/
theorem c10_target_interning (typeName : Nat → String)
    (msgs : List StreamDeliver) :
    (∀ p q : PID, p.Address ++ p.ID = q.Address ++ q.ID →
      LookupKey p = LookupKey q) ∧
    (∀ j j' (hj : j < msgs.length) (hj' : j' < msgs.length),
      LookupKey (msgs.get ⟨j, hj⟩).target =
        LookupKey (msgs.get ⟨j', hj'⟩).target →
      ((writerInvoke typeName msgs).messages.getD j ⟨0,0,0,0⟩).targetIndex =
        ((writerInvoke typeName msgs).messages.getD j' ⟨0,0,0,0⟩).targetIndex) ∧
    ((∀ p q : PID, (∃ sd ∈ msgs, sd.target = p) →
        (∃ sd ∈ msgs, sd.target = q) → LookupKey p = LookupKey q → p = q) →
      ∀ j (hj : j < msgs.length),
        ((readerDeliveries (writerInvoke typeName msgs)).getD j
          dummyDelivery).1 = (msgs.get ⟨j, hj⟩).target) := by
  obtain ⟨hlen, _, hprovT, hspec, _, hinjT⟩ :=
    writer_envelope_spec typeName msgs
  refine ⟨?_, ?_, ?_⟩
  · intro p q h
    unfold LookupKey
    rw [h]
  · intro j j' hj hj' hk
    obtain ⟨_, _, _, hlt, hkey⟩ := hspec j hj
    obtain ⟨_, _, _, hlt', hkey'⟩ := hspec j' hj'
    exact hinjT _ _ hlt hlt' (by rw [hkey, hkey', hk])
  · intro hnc j hj
    obtain ⟨_, _, _, hlt, hkey⟩ := hspec j hj
    have hdel : (readerDeliveries (writerInvoke typeName msgs)).getD j
        dummyDelivery =
        readerDecode (writerInvoke typeName msgs)
          ((writerInvoke typeName msgs).messages.getD j ⟨0, 0, 0, 0⟩) :=
      getD_map _ _ j _ _ (by rw [hlen]; exact hj)
    rw [hdel]
    show (writerInvoke typeName msgs).targets.getD _ dummyPID = _
    have hx : (writerInvoke typeName msgs).targets.getD
        ((writerInvoke typeName msgs).messages.getD j ⟨0,0,0,0⟩).targetIndex
        dummyPID ∈ (writerInvoke typeName msgs).targets :=
      getD_mem _ _ _ hlt
    obtain ⟨sd', hsd', hx'⟩ := hprovT _ hx
    refine hnc _ _ ⟨sd', hsd', hx'⟩ ?_ hkey
    exact ⟨msgs.get ⟨j, hj⟩, msgs.get_mem j hj, rfl⟩

/-- C9 witness: a mixed batch — the non-nil sender round-trips, the
nil-sender message is delivered with the sender at table index 0. -/
theorem c9_sender_roundtrip_witness :
    ((readerDeliveries (writerInvoke (fun _ => "int")
        [⟨some ⟨"h:1", "player/1"⟩, ⟨"h:2", "echo/1"⟩, 1⟩,
          ⟨none, ⟨"h:2", "echo/1"⟩, 2⟩])).getD 0 dummyDelivery).2.2 =
      some ⟨"h:1", "player/1"⟩ ∧
    ((readerDeliveries (writerInvoke (fun _ => "int")
        [⟨some ⟨"h:1", "player/1"⟩, ⟨"h:2", "echo/1"⟩, 1⟩,
          ⟨none, ⟨"h:2", "echo/1"⟩, 2⟩])).getD 1 dummyDelivery).2.2 =
      some ((writerInvoke (fun _ => "int")
        [⟨some ⟨"h:1", "player/1"⟩, ⟨"h:2", "echo/1"⟩, 1⟩,
          ⟨none, ⟨"h:2", "echo/1"⟩, 2⟩]).senders.getD 0 dummyPID) ∧
    (writerInvoke (fun _ => "int")
        [⟨some ⟨"h:1", "player/1"⟩, ⟨"h:2", "echo/1"⟩, 1⟩,
          ⟨none, ⟨"h:2", "echo/1"⟩, 2⟩]).senders.getD 0 dummyPID =
      ⟨"h:1", "player/1"⟩ := by
  have hnc : ∀ p q : PID,
      (∃ sd ∈ [(⟨some ⟨"h:1", "player/1"⟩, ⟨"h:2", "echo/1"⟩, 1⟩ : StreamDeliver),
        ⟨none, ⟨"h:2", "echo/1"⟩, 2⟩], sd.sender = some p) →
      (∃ sd ∈ [(⟨some ⟨"h:1", "player/1"⟩, ⟨"h:2", "echo/1"⟩, 1⟩ : StreamDeliver),
        ⟨none, ⟨"h:2", "echo/1"⟩, 2⟩], sd.sender = some q) →
      LookupKey p = LookupKey q → p = q := by
    rintro p q ⟨sd, hsd, hps⟩ ⟨sd', hsd', hqs⟩ _
    simp only [List.mem_cons, List.not_mem_nil, or_false] at hsd hsd'
    rcases hsd with rfl | rfl <;> rcases hsd' with rfl | rfl <;> simp_all
  refine ⟨?_, ?_, by decide⟩
  · exact (c9_sender_roundtrip (fun _ => "int")
      [⟨some ⟨"h:1", "player/1"⟩, ⟨"h:2", "echo/1"⟩, 1⟩,
        ⟨none, ⟨"h:2", "echo/1"⟩, 2⟩]).2.2.1 hnc 0 (by decide)
      ⟨"h:1", "player/1"⟩ rfl
  · exact (c9_sender_roundtrip (fun _ => "int")
      [⟨some ⟨"h:1", "player/1"⟩, ⟨"h:2", "echo/1"⟩, 1⟩,
        ⟨none, ⟨"h:2", "echo/1"⟩, 2⟩]).2.2.2 1 (by decide) rfl
      ⟨0, by decide, ⟨"h:1", "player/1"⟩, rfl⟩

/-- C10 witness: with two targets whose concatenations (hence keys)
differ, every message resolves to exactly its own target. -/
theorem c10_target_interning_witness :
    ((readerDeliveries (writerInvoke (fun _ => "int")
        [⟨none, ⟨"h:1", "a"⟩, 1⟩, ⟨none, ⟨"h:2", "b"⟩, 2⟩])).getD 0
      dummyDelivery).1 = ⟨"h:1", "a"⟩ ∧
    ((readerDeliveries (writerInvoke (fun _ => "int")
        [⟨none, ⟨"h:1", "a"⟩, 1⟩, ⟨none, ⟨"h:2", "b"⟩, 2⟩])).getD 1
      dummyDelivery).1 = ⟨"h:2", "b"⟩ ∧
    LookupKey (⟨"ab", "c"⟩ : PID) = LookupKey ⟨"a", "bc"⟩ := by
  have hneq : LookupKey (⟨"h:1", "a"⟩ : PID) ≠ LookupKey ⟨"h:2", "b"⟩ := by
    decide
  have hnc : ∀ p q : PID,
      (∃ sd ∈ [(⟨none, ⟨"h:1", "a"⟩, 1⟩ : StreamDeliver),
        ⟨none, ⟨"h:2", "b"⟩, 2⟩], sd.target = p) →
      (∃ sd ∈ [(⟨none, ⟨"h:1", "a"⟩, 1⟩ : StreamDeliver),
        ⟨none, ⟨"h:2", "b"⟩, 2⟩], sd.target = q) →
      LookupKey p = LookupKey q → p = q := by
    rintro p q ⟨sd, hsd, hps⟩ ⟨sd', hsd', hqs⟩ hk
    simp only [List.mem_cons, List.not_mem_nil, or_false] at hsd hsd'
    rcases hsd with rfl | rfl <;> rcases hsd' with rfl | rfl <;> subst hps <;>
      subst hqs
    · rfl
    · exact absurd hk hneq
    · exact absurd hk.symm hneq
    · rfl
  refine ⟨?_, ?_, (c10_target_interning (fun _ => "int") []).1 ⟨"ab", "c"⟩
    ⟨"a", "bc"⟩ rfl⟩
  · exact (c10_target_interning (fun _ => "int")
      [⟨none, ⟨"h:1", "a"⟩, 1⟩, ⟨none, ⟨"h:2", "b"⟩, 2⟩]).2.2 hnc 0 (by decide)
  · exact (c10_target_interning (fun _ => "int")
      [⟨none, ⟨"h:1", "a"⟩, 1⟩, ⟨none, ⟨"h:2", "b"⟩, 2⟩]).2.2 hnc 1 (by decide)

/-- C1 helper: a concrete payload type for witnesses. -/
abbrev Msg0 := Nat

/-- C1: `Engine.Send`/`Engine.SendWithSender` both reduce to
`Engine.send` (engine.go 122-130), whose four cases are: nil pid is
silently dropped with no event; a local pid missing from the registry
yields exactly one `DeadLetterEvent{Target, Message, Sender}`; a
non-local pid with no remote yields exactly one
`EngineRemoteMissingEvent{Target, Sender, Message}`; a non-local pid
with a remote hands the message to the remote's stream router. -/
theorem c1_send_cases {M : Type} (e : EngineState) (pid : Option PID)
    (msg : M) (sender : Option PID) :
    (pid = none → send e pid msg sender = (.dropped, [])) ∧
    (∀ p, pid = some p → p.Address = e.address →
      ¬ e.registryIds.contains p.ID = true →
      send e pid msg sender =
        (.eventOnly, [.deadLetter p msg sender])) ∧
    (∀ p, pid = some p → p.Address ≠ e.address → e.hasRemote = false →
      send e pid msg sender =
        (.eventOnly, [.remoteMissing p sender msg])) ∧
    (∀ p, pid = some p → p.Address ≠ e.address → e.hasRemote = true →
      send e pid msg sender = (.toRemote p msg sender, [])) := by
  refine ⟨?_, ?_, ?_, ?_⟩
  · rintro rfl; rfl
  · rintro p rfl haddr hmiss
    simp only [send, isLocalMessage, haddr, beq_self_eq_true, if_pos]
    simp only [SendLocal]
    rw [if_neg hmiss]
  · rintro p rfl haddr hrem
    have : (e.address == p.Address) = false := by
      simp [beq_eq_false_iff_ne]; exact fun h => haddr h.symm
    simp [send, isLocalMessage, this, hrem]
  · rintro p rfl haddr hrem
    have : (e.address == p.Address) = false := by
      simp [beq_eq_false_iff_ne]; exact fun h => haddr h.symm
    simp [send, isLocalMessage, this, hrem]

/-- C1 witness: the four cases evaluated on concrete engine states. -/
theorem c1_send_cases_witness :
    send (M := Msg0) ⟨"local", false, ["a"]⟩ none 7 none = (.dropped, []) ∧
    send (M := Msg0) ⟨"local", false, ["a"]⟩ (some ⟨"local", "b"⟩) 7 none =
      (.eventOnly, [.deadLetter ⟨"local", "b"⟩ 7 none]) ∧
    send (M := Msg0) ⟨"local", false, ["a"]⟩ (some ⟨"h:1", "b"⟩) 7 none =
      (.eventOnly, [.remoteMissing ⟨"h:1", "b"⟩ none 7]) ∧
    send (M := Msg0) ⟨"h:2", true, ["a"]⟩ (some ⟨"h:1", "b"⟩) 7 none =
      (.toRemote ⟨"h:1", "b"⟩ 7 none, []) := by
  refine ⟨(c1_send_cases _ none 7 none).1 rfl, ?_, ?_, ?_⟩
  · exact (c1_send_cases ⟨"local", false, ["a"]⟩ _ 7 none).2.1
      ⟨"local", "b"⟩ rfl rfl (by decide)
  · exact (c1_send_cases ⟨"local", false, ["a"]⟩ _ 7 none).2.2.1
      ⟨"h:1", "b"⟩ rfl (by decide) rfl
  · exact (c1_send_cases ⟨"h:2", true, ["a"]⟩ _ 7 none).2.2.2
      ⟨"h:1", "b"⟩ rfl (by decide) rfl

/-- C3: on a duplicate id, `Registry.add` leaves the registry unchanged
(the incumbent is kept), never starts the new process, broadcasts
exactly one `ActorDuplicateIdEvent`, and `Engine.SpawnProc` still
returns the PID of the rejected process. -/
theorem c3_duplicate_spawn (r : Registry) (procPid : PID)
    (hdup : (r.map Prod.fst).contains procPid.ID = true) :
    (SpawnProc r procPid).1.registry = r ∧
    (SpawnProc r procPid).1.started = false ∧
    (SpawnProc r procPid).1.events = [⟨procPid⟩] ∧
    (SpawnProc r procPid).2 = procPid := by
  unfold SpawnProc Registry.add
  rw [if_pos hdup]
  exact ⟨rfl, rfl, rfl, rfl⟩

/-- C3 witness: registering id "x" twice. -/
theorem c3_duplicate_spawn_witness :
    ((List.map Prod.fst [("x", NewPID "local" "x")]).contains
        (NewPID "local" "x").ID = true) ∧
    (SpawnProc [("x", NewPID "local" "x")] (NewPID "local" "x")).1.registry =
      [("x", NewPID "local" "x")] := by
  refine ⟨by decide, ?_⟩
  exact (c3_duplicate_spawn [("x", NewPID "local" "x")]
    (NewPID "local" "x") (by decide)).1

/-- C4 counterexample: pushing onto the full buffer `new 2` (one live
element, `1`) doubles the capacity, but the live element is copied to
offset 1, not offset 0 as the claim's `[0..n)` states — offset 0
receives the stale head slot. -/
theorem c4_counterexample :
    ((RingBuffer.new Nat 2).push 1).toList = [1] ∧
    ((RingBuffer.new Nat 2).push 1).len = 1 ∧
    (((RingBuffer.new Nat 2).push 1).push 2).content.mod = 4 ∧
    ¬ ((((RingBuffer.new Nat 2).push 1).push 2).content.items.getD 0 0 = 1) ∧
    (((RingBuffer.new Nat 2).push 1).push 2).content.items.getD 1 0 = 1 := by
  decide

/-- C4 amended: on a push that collides tail with head, the capacity is
doubled and the `mod` slots starting at the head slot are copied in
ring order into offsets `[0..mod)` of the fresh buffer — so the `n`
live elements land at offsets `[1..n]` (oldest first), the stale head
slot at offset 0 — after which the pushed element is stored at offset
`mod` (the new tail). -/
theorem c4_grow_copy [Inhabited α] (rb : RingBuffer α) (x : α)
    (hmod : 0 < rb.content.mod)
    (hsize : rb.content.items.size = rb.content.mod)
    (hfull : (rb.content.tail + 1) % rb.content.mod = rb.content.head) :
    (rb.push x).content.mod = rb.content.mod * 2 ∧
    (rb.push x).content.head = 0 ∧
    (rb.push x).content.tail = rb.content.mod ∧
    (rb.push x).len = rb.len + 1 ∧
    (rb.push x).content.items.getD rb.content.mod default = x ∧
    (∀ i, i < rb.content.mod →
      (rb.push x).content.items.getD i default =
        rb.content.items.getD ((rb.content.head + i) % rb.content.mod) default) := by
  rw [push_eq_grow rb x hfull]
  refine ⟨rfl, rfl, rfl, rfl, ?_, ?_⟩
  · dsimp only
    exact arr_getD_setD_self _ _ _ (by rw [Array.size_ofFn]; omega)
  · intro i hi
    dsimp only
    rw [arr_getD_setD_ne _ _ _ (by omega),
      arr_getD_pos _ _ (by rw [Array.size_ofFn]; omega),
      Array.getElem_ofFn]
    simp only [hi, if_true, if_pos]

/-- C4 witness: the amended layout at the concrete doubling input. -/
theorem c4_grow_copy_witness :
    (0 < ((RingBuffer.new Nat 2).push 1).content.mod) ∧
    (((RingBuffer.new Nat 2).push 1).content.items.size =
      ((RingBuffer.new Nat 2).push 1).content.mod) ∧
    ((((RingBuffer.new Nat 2).push 1).content.tail + 1) %
        ((RingBuffer.new Nat 2).push 1).content.mod =
      ((RingBuffer.new Nat 2).push 1).content.head) ∧
    ((((RingBuffer.new Nat 2).push 1).push 2).content.mod =
      ((RingBuffer.new Nat 2).push 1).content.mod * 2) ∧
    ((((RingBuffer.new Nat 2).push 1).push 2).content.items.getD 1 0 =
      ((RingBuffer.new Nat 2).push 1).content.items.getD
        ((((RingBuffer.new Nat 2).push 1).content.head + 1) %
          ((RingBuffer.new Nat 2).push 1).content.mod) 0) :=
  ⟨by decide, by decide, by decide,
    (c4_grow_copy ((RingBuffer.new Nat 2).push 1) 2
      (by decide) (by decide) (by decide)).1,
    (c4_grow_copy ((RingBuffer.new Nat 2).push 1) 2
      (by decide) (by decide) (by decide)).2.2.2.2.2 1 (by decide)⟩

/-- C8: over every sequence of `Push`/`Pop`/`PopN` operations, a
well-formed ring buffer behaves exactly like the functional FIFO queue
its live contents abstract to: elements come out in push order, and
`Pop`/`PopN` on an empty buffer report failure (`none`). -/
theorem c8_fifo_refinement [Inhabited α] (ops : List (QOp α))
    (rb : RingBuffer α) (q : List α) (hwf : rb.WF) (habs : rb.toList = q) :
    rb.run ops = Queue.run q ops := by
  induction ops generalizing rb q with
  | nil => rfl
  | cons op ops ih =>
    cases op with
    | push x =>
      obtain ⟨hwf', htl⟩ := push_toList rb x hwf
      show (rb.push x).run ops = Queue.run (q ++ [x]) ops
      exact ih _ _ hwf' (by rw [htl, habs])
    | pop =>
      cases q with
      | nil =>
        have h1 : rb.pop = none := (pop_toList rb hwf).1 habs
        show (match rb.pop with
          | none => none :: rb.run ops
          | some (x, rb') => some [x] :: rb'.run ops) = _
        rw [h1]
        exact congrArg (none :: ·) (ih rb [] hwf habs)
      | cons x xs =>
        obtain ⟨rb', h1, hwf', htl'⟩ := (pop_toList rb hwf).2 x xs habs
        show (match rb.pop with
          | none => none :: rb.run ops
          | some (x, rb') => some [x] :: rb'.run ops) = _
        rw [h1]
        exact congrArg (some [x] :: ·) (ih rb' xs hwf' htl')
    | popN n =>
      cases q with
      | nil =>
        have h1 : rb.popN n = none := (popN_toList rb n hwf).1 habs
        show (match rb.popN n with
          | none => none :: rb.run ops
          | some (xs, rb') => some xs :: rb'.run ops) = _
        rw [h1]
        exact congrArg (none :: ·) (ih rb [] hwf habs)
      | cons x xs =>
        obtain ⟨rb', h1, hwf', htl'⟩ :=
          (popN_toList rb n hwf).2 (by rw [habs]; exact List.cons_ne_nil x xs)
        show (match rb.popN n with
          | none => none :: rb.run ops
          | some (xs, rb') => some xs :: rb'.run ops) = _
        rw [h1, habs]
        exact congrArg _ (ih rb' _ hwf' (by rw [htl', habs]))

/-- C8 witness: a concrete run that crosses a capacity doubling and
hits both empty-buffer failure cases. -/
theorem c8_fifo_refinement_witness :
    (RingBuffer.new Nat 2).WF ∧
    (RingBuffer.new Nat 2).run
        [QOp.push 1, QOp.push 2, QOp.push 3, QOp.pop, QOp.popN 5,
          QOp.pop, QOp.popN 1] =
      Queue.run []
        [QOp.push 1, QOp.push 2, QOp.push 3, QOp.pop, QOp.popN 5,
          QOp.pop, QOp.popN 1] ∧
    Queue.run []
        [QOp.push 1, QOp.push 2, QOp.push 3, QOp.pop, QOp.popN 5,
          QOp.pop, QOp.popN 1] =
      [some [1], some [2, 3], none, none] :=
  ⟨(new_WF Nat 2 (by decide)).1,
    c8_fifo_refinement _ (RingBuffer.new Nat 2) []
      (new_WF Nat 2 (by decide)).1 (new_WF Nat 2 (by decide)).2,
    by decide⟩

end DistFw
